import Mathlib

/-!
Verification development for the antigravity2api-nodejs protocol-translation
proxy.  The definitions below are a shallow embedding of the JavaScript
sources (`src/api/client.js`, `src/utils/converters/common.js`,
`src/utils/converters/claude.js`, `src/utils/webSearchGrounding.js`,
`src/server/index.js`).  JavaScript values flowing through the streaming
interpreter are modelled by the `Json` type; JS truthiness, property access
and optional chaining are modelled explicitly.
-/

/-- Model of a JavaScript JSON value (the result of `JSON.parse`).
Numbers are kept as their source lexeme: the interpreter never computes
with numbers, it only tests truthiness and re-serialises them. -/
inductive Json where
  | null : Json
  | bool (b : Bool) : Json
  | num (raw : String) : Json
  | str (s : String) : Json
  | arr (elems : List Json) : Json
  | obj (fields : List (String × Json)) : Json
deriving Repr

namespace Json

mutual
def beq : Json → Json → Bool
  | .null, .null => true
  | .bool a, .bool b => a == b
  | .num a, .num b => a == b
  | .str a, .str b => a == b
  | .arr a, .arr b => beqList a b
  | .bool _, _ => false
  | .num _, _ => false
  | .str _, _ => false
  | .arr _, _ => false
  | .obj a, .obj b => beqFields a b
  | .obj _, _ => false
  | .null, _ => false

def beqList : List Json → List Json → Bool
  | [], [] => true
  | a :: as, b :: bs => beq a b && beqList as bs
  | _, _ => false

def beqFields : List (String × Json) → List (String × Json) → Bool
  | [], [] => true
  | (k, v) :: as, (k2, v2) :: bs => k == k2 && beq v v2 && beqFields as bs
  | _, _ => false
end

mutual
theorem beq_iff : ∀ a b : Json, beq a b = true ↔ a = b
  | .null, b => by cases b <;> simp [beq]
  | .bool x, b => by cases b <;> simp [beq]
  | .num x, b => by cases b <;> simp [beq]
  | .str x, b => by cases b <;> simp [beq]
  | .arr xs, b => by
      cases b <;> simp [beq]
      exact beqList_iff xs _
  | .obj fs, b => by
      cases b <;> simp [beq]
      exact beqFields_iff fs _

theorem beqList_iff : ∀ a b : List Json, beqList a b = true ↔ a = b
  | [], b => by cases b <;> simp [beqList]
  | x :: xs, b => by
      cases b with
      | nil => simp [beqList]
      | cons y ys =>
        simp only [beqList, Bool.and_eq_true, List.cons.injEq]
        exact and_congr (beq_iff x y) (beqList_iff xs ys)

theorem beqFields_iff : ∀ a b : List (String × Json), beqFields a b = true ↔ a = b
  | [], b => by cases b <;> simp [beqFields]
  | (k, v) :: xs, b => by
      cases b with
      | nil => simp [beqFields]
      | cons y ys =>
        obtain ⟨k2, v2⟩ := y
        simp only [beqFields, Bool.and_eq_true, List.cons.injEq, Prod.mk.injEq]
        constructor
        · rintro ⟨⟨hk, hv⟩, hs⟩
          exact ⟨⟨by simpa using hk, (beq_iff v v2).mp hv⟩, (beqFields_iff xs ys).mp hs⟩
        · rintro ⟨⟨hk, hv⟩, hs⟩
          exact ⟨⟨by simpa using hk, (beq_iff v v2).mpr hv⟩, (beqFields_iff xs ys).mpr hs⟩
end

instance : DecidableEq Json := fun a b =>
  decidable_of_iff (beq a b = true) (beq_iff a b)

/-- A JSON number lexeme denotes zero iff every digit of its integer and
fraction part is `0` (the exponent cannot make a zero non-zero). -/
def numLexemeIsZero (raw : String) : Bool :=
  let body := (raw.data.filter (fun c => c ≠ '-' ∧ c ≠ '.')).takeWhile
    (fun c => c ≠ 'e' ∧ c ≠ 'E')
  body.all (· = '0')

/-- JavaScript truthiness of a parsed JSON value: `null`, `false`, `0`
and `""` are falsy, every array and object is truthy. -/
def truthy : Json → Bool
  | .null => false
  | .bool b => b
  | .num raw => ! numLexemeIsZero raw
  | .str s => s ≠ ""
  | .arr _ => true
  | .obj _ => true

/-- Last-binding lookup in a field list: `JSON.parse` keeps the last of
duplicate keys, so the object behaves as if earlier bindings were
overwritten. -/
def lookupField (k : String) (fields : List (String × Json)) : Option Json :=
  (fields.filter (fun f => f.1 = k)).getLast?.map (·.2)

/-- Model of `x.k`: property access on an object; on every non-object
(primitive, array, `null` excluded by the callers) the properties read by
the interpreter are absent, yielding `undefined` (`none`). -/
def get : Json → String → Option Json
  | .obj fields, k => lookupField k fields
  | _, _ => none

end Json

/-- Model of the optional-chaining step `x?.k`: `undefined` and `null`
short-circuit to `undefined`, otherwise the property is read. -/
def oget (o : Option Json) (k : String) : Option Json :=
  match o with
  | none => none
  | some v => if v = Json.null then none else v.get k

/-- Model of `x?.[n]`: index access after optional chaining.  Arrays index
positionally, plain objects by the decimal key, strings by character. -/
def oidx (o : Option Json) (n : Nat) : Option Json :=
  match o with
  | none => none
  | some (Json.arr xs) => xs.get? n
  | some (Json.obj fields) => Json.lookupField (toString n) fields
  | some (Json.str s) => (s.data.get? n).map (fun c => Json.str (String.mk [c]))
  | some _ => none

/-- Truthiness of a possibly-`undefined` JavaScript value. -/
def otruthy (o : Option Json) : Bool :=
  match o with
  | none => false
  | some v => v.truthy

/-! ### A model of `JSON.parse` / `JSON.stringify`

The streaming interpreter in `src/api/client.js` parses each SSE payload
with `JSON.parse` and re-serialises tool-call arguments with
`JSON.stringify`.  Both are modelled here by an executable recursive-descent
parser and printer over `Json`. -/

/-- JSON insignificant whitespace. -/
def isJsonWs (c : Char) : Bool :=
  c = ' ' || c = '\t' || c = '\n' || c = '\r'

def skipWs (cs : List Char) : List Char :=
  cs.dropWhile isJsonWs

def hexDigitVal (c : Char) : Option Nat :=
  if '0' ≤ c ∧ c ≤ '9' then some (c.toNat - '0'.toNat)
  else if 'a' ≤ c ∧ c ≤ 'f' then some (c.toNat - 'a'.toNat + 10)
  else if 'A' ≤ c ∧ c ≤ 'F' then some (c.toNat - 'A'.toNat + 10)
  else none

def hex4Val (h1 h2 h3 h4 : Char) : Option Nat := do
  let a ← hexDigitVal h1
  let b ← hexDigitVal h2
  let c ← hexDigitVal h3
  let d ← hexDigitVal h4
  pure (((a * 16 + b) * 16 + c) * 16 + d)

/-- Characters that may occur in a JSON number lexeme. -/
def isNumChar (c : Char) : Bool :=
  c.isDigit || c = '-' || c = '+' || c = '.' || c = 'e' || c = 'E'

/-- Validity of a JSON number lexeme per the JSON grammar
(`-? int frac? exp?`, no leading zeros). -/
def validNumLexeme (cs : List Char) : Bool :=
  let afterSign := match cs with
    | '-' :: rest => some rest
    | rest => some rest
  match afterSign with
  | none => false
  | some body =>
    let intOk : Option (List Char) := match body with
      | '0' :: rest => some rest
      | c :: rest => if c.isDigit then some (rest.dropWhile Char.isDigit) else none
      | [] => none
    match intOk with
    | none => false
    | some afterInt =>
      let fracOk : Option (List Char) := match afterInt with
        | '.' :: c :: rest => if c.isDigit then some (rest.dropWhile Char.isDigit) else none
        | '.' :: [] => none
        | rest => some rest
      match fracOk with
      | none => false
      | some afterFrac =>
        match afterFrac with
        | [] => true
        | e :: rest =>
          if e = 'e' ∨ e = 'E' then
            let rest2 := match rest with
              | '+' :: r => r
              | '-' :: r => r
              | r => r
            match rest2 with
            | c :: r => c.isDigit && (r.dropWhile Char.isDigit) = []
            | [] => false
          else false

/-- Parse the body of a JSON string after the opening quote.  `acc` holds
the accumulated characters in reverse.  Lone surrogate escapes, which the
Lean `Char` type cannot represent, are modelled as U+FFFD.  The fuel is
an upper bound on the input length, so it never runs out. -/
def parseStringBody : Nat → List Char → List Char → Option (String × List Char)
  | 0, _, _ => none
  | _ + 1, acc, '"' :: rest => some (String.mk acc.reverse, rest)
  | fuel + 1, acc, '\\' :: esc =>
    match esc with
    | '"' :: r => parseStringBody fuel ('"' :: acc) r
    | '\\' :: r => parseStringBody fuel ('\\' :: acc) r
    | '/' :: r => parseStringBody fuel ('/' :: acc) r
    | 'b' :: r => parseStringBody fuel ('\x08' :: acc) r
    | 'f' :: r => parseStringBody fuel ('\x0c' :: acc) r
    | 'n' :: r => parseStringBody fuel ('\n' :: acc) r
    | 'r' :: r => parseStringBody fuel ('\r' :: acc) r
    | 't' :: r => parseStringBody fuel ('\t' :: acc) r
    | 'u' :: h1 :: h2 :: h3 :: h4 :: r =>
      match hex4Val h1 h2 h3 h4 with
      | none => none
      | some v =>
        if 0xD800 ≤ v ∧ v < 0xDC00 then
          -- high surrogate: try to combine with a following low surrogate
          match r with
          | '\\' :: 'u' :: g1 :: g2 :: g3 :: g4 :: r2 =>
            match hex4Val g1 g2 g3 g4 with
            | some w =>
              if 0xDC00 ≤ w ∧ w < 0xE000 then
                parseStringBody fuel
                  (Char.ofNat (0x10000 + (v - 0xD800) * 0x400 + (w - 0xDC00)) :: acc) r2
              else parseStringBody fuel ('\uFFFD' :: acc) r
            | none => parseStringBody fuel ('\uFFFD' :: acc) r
          | _ => parseStringBody fuel ('\uFFFD' :: acc) r
        else if 0xDC00 ≤ v ∧ v < 0xE000 then
          parseStringBody fuel ('\uFFFD' :: acc) r
        else
          parseStringBody fuel (Char.ofNat v :: acc) r
    | _ => none
  | fuel + 1, acc, c :: rest =>
    if c.toNat < 0x20 then none else parseStringBody fuel (c :: acc) rest
  | _, _, [] => none

def parseNumberLexeme (cs : List Char) : Option (Json × List Char) :=
  let lex := cs.takeWhile isNumChar
  if validNumLexeme lex then some (Json.num (String.mk lex), cs.drop lex.length)
  else none

mutual
def parseValue : Nat → List Char → Option (Json × List Char)
  | 0, _ => none
  | fuel + 1, cs =>
    match skipWs cs with
    | [] => none
    | '"' :: rest =>
      (parseStringBody (rest.length + 1) [] rest).map (fun p => (Json.str p.1, p.2))
    | '[' :: rest =>
      (match skipWs rest with
       | ']' :: r => some (Json.arr [], r)
       | _ => (parseArrayItems fuel rest).map (fun p => (Json.arr p.1, p.2)))
    | '{' :: rest =>
      (match skipWs rest with
       | '}' :: r => some (Json.obj [], r)
       | _ => (parseObjMembers fuel rest).map (fun p => (Json.obj p.1, p.2)))
    | 't' :: rest =>
      if "rue".data.isPrefixOf rest then some (Json.bool true, rest.drop 3) else none
    | 'f' :: rest =>
      if "alse".data.isPrefixOf rest then some (Json.bool false, rest.drop 4) else none
    | 'n' :: rest =>
      if "ull".data.isPrefixOf rest then some (Json.null, rest.drop 3) else none
    | c :: rest =>
      if c = '-' ∨ c.isDigit then parseNumberLexeme (c :: rest) else none

def parseArrayItems : Nat → List Char → Option (List Json × List Char)
  | 0, _ => none
  | fuel + 1, cs =>
    match parseValue fuel cs with
    | none => none
    | some (v, r) =>
      match skipWs r with
      | ',' :: r2 => (parseArrayItems fuel r2).map (fun p => (v :: p.1, p.2))
      | ']' :: r2 => some ([v], r2)
      | _ => none

def parseObjMembers : Nat → List Char → Option (List (String × Json) × List Char)
  | 0, _ => none
  | fuel + 1, cs =>
    match skipWs cs with
    | '"' :: rest =>
      match parseStringBody (rest.length + 1) [] rest with
      | none => none
      | some (k, r) =>
        match skipWs r with
        | ':' :: r2 =>
          match parseValue fuel r2 with
          | none => none
          | some (v, r3) =>
            match skipWs r3 with
            | ',' :: r4 => (parseObjMembers fuel r4).map (fun p => ((k, v) :: p.1, p.2))
            | '\x7d' :: r4 => some ([(k, v)], r4)
            | _ => none
        | _ => none
    | _ => none
end

/-- Model of `JSON.parse` on a payload: one JSON value surrounded by
optional whitespace; anything else raises (modelled as `none`). -/
def parseJson (payload : List Char) : Option Json :=
  match parseValue (4 * payload.length + 8) payload with
  | some (v, rest) => if skipWs rest = [] then some v else none
  | none => none

def natToHex4 (n : Nat) : List Char :=
  let d (k : Nat) : Char :=
    if k < 10 then Char.ofNat ('0'.toNat + k) else Char.ofNat ('a'.toNat + k - 10)
  [d (n / 4096 % 16), d (n / 256 % 16), d (n / 16 % 16), d (n % 16)]

/-- `JSON.stringify` escaping of one string character. -/
def escapeJsonChar (c : Char) : List Char :=
  if c = '"' then ['\\', '"']
  else if c = '\\' then ['\\', '\\']
  else if c = '\x08' then ['\\', 'b']
  else if c = '\x0c' then ['\\', 'f']
  else if c = '\n' then ['\\', 'n']
  else if c = '\r' then ['\\', 'r']
  else if c = '\t' then ['\\', 't']
  else if c.toNat < 0x20 then '\\' :: 'u' :: natToHex4 c.toNat
  else [c]

def escapeJsonString (s : String) : String :=
  String.mk (s.data.foldr (fun c acc => escapeJsonChar c ++ acc) [])

mutual
/-- Model of compact `JSON.stringify`.  A `num` is printed as its lexeme
(the JS engine re-serialises the numeric value; for the inputs considered
here the lexeme is that serialisation). -/
def stringifyJson : Json → String
  | .null => "null"
  | .bool true => "true"
  | .bool false => "false"
  | .num raw => raw
  | .str s => "\"" ++ escapeJsonString s ++ "\""
  | .arr xs => "[" ++ stringifyListJson xs ++ "]"
  | .obj fields => "\x7b" ++ stringifyMembersJson fields ++ "\x7d"

def stringifyListJson : List Json → String
  | [] => ""
  | [x] => stringifyJson x
  | x :: y :: xs => stringifyJson x ++ "," ++ stringifyListJson (y :: xs)

def stringifyMembersJson : List (String × Json) → String
  | [] => ""
  | [(k, v)] => "\"" ++ escapeJsonString k ++ "\":" ++ stringifyJson v
  | (k, v) :: m :: ms =>
    "\"" ++ escapeJsonString k ++ "\":" ++ stringifyJson v ++ "," ++
      stringifyMembersJson (m :: ms)
end

def indentOf (level : Nat) : String := String.mk (List.replicate (2 * level) ' ')

mutual
/-- Model of `JSON.stringify(value, null, 2)` (two-space pretty printing),
used by the error handler on object response bodies. -/
def stringifyJsonPretty : Nat → Json → String
  | _, .null => "null"
  | _, .bool true => "true"
  | _, .bool false => "false"
  | _, .num raw => raw
  | _, .str s => "\"" ++ escapeJsonString s ++ "\""
  | _, .arr [] => "[]"
  | level, .arr (x :: xs) =>
    "[\n" ++ stringifyListPretty (level + 1) (x :: xs) ++ "\n" ++ indentOf level ++ "]"
  | _, .obj [] => "\x7b\x7d"
  | level, .obj (f :: fs) =>
    "\x7b\n" ++ stringifyMembersPretty (level + 1) (f :: fs) ++ "\n" ++ indentOf level ++ "\x7d"

def stringifyListPretty : Nat → List Json → String
  | _, [] => ""
  | level, [x] => indentOf level ++ stringifyJsonPretty level x
  | level, x :: y :: xs =>
    indentOf level ++ stringifyJsonPretty level x ++ ",\n" ++
      stringifyListPretty level (y :: xs)

def stringifyMembersPretty : Nat → List (String × Json) → String
  | _, [] => ""
  | level, [(k, v)] =>
    indentOf level ++ "\"" ++ escapeJsonString k ++ "\": " ++ stringifyJsonPretty level v
  | level, (k, v) :: m :: ms =>
    indentOf level ++ "\"" ++ escapeJsonString k ++ "\": " ++
      stringifyJsonPretty level v ++ ",\n" ++ stringifyMembersPretty level (m :: ms)
end

/-! ### Streaming interpreter (`src/api/client.js`)

`parseAndEmitStreamChunk(line, state, callback)` parses one SSE line and
emits zero or more events; `generateAssistantResponse` maintains a line
buffer across network chunks (`processChunk`).  Events are modelled as an
inductive: the code emits them as `{type, content}` frames where
`thinkingStart` is `{type:'thinking', content:'<think>\n'}`,
`thinkingDelta t` is `{type:'thinking', content: t}` with `t = part.text || ''`,
`thinkingEnd` is `{type:'thinking', content:'\n</think>\n'}`,
`textDelta t` is `{type:'text', content: part.text}` and
`toolCallsEvt l` is `{type:'tool_calls', tool_calls: l}`. -/

/-- Modelled from the spec: `src/utils/idGenerator.js` is not among the
provided sources.  A `functionCall` part without an `id` receives a freshly
generated tool-call id; it is modelled as an opaque constant. -/
def generateToolCallId : String := "call_generated"

/-- One OpenAI-shaped tool call produced by `convertToToolCall`; the
constant field `type: 'function'` is omitted.  `name` is absent when the
backend `functionCall` has no `name`; `arguments` is absent
(`JSON.stringify(undefined)`) when it has no `args`. -/
structure OAIToolCall where
  id : Json
  name : Option Json
  arguments : Option String
deriving DecidableEq, Repr

/-- `convertToToolCall(functionCall)` from `src/api/client.js`. -/
def convertToToolCall (fc : Json) : OAIToolCall :=
  { id := if otruthy (fc.get "id") then (fc.get "id").getD Json.null
          else Json.str generateToolCallId
    name := fc.get "name"
    arguments := (fc.get "args").map stringifyJson }

inductive StreamEvent where
  | thinkingStart : StreamEvent
  | thinkingDelta (content : Json) : StreamEvent
  | thinkingEnd : StreamEvent
  | textDelta (content : Json) : StreamEvent
  | toolCallsEvt (calls : List OAIToolCall) : StreamEvent
deriving DecidableEq, Repr

/-- Per-stream mutable state of `generateAssistantResponse`:
`{ thinkingStarted: false, toolCalls: [] }`. -/
structure StreamState where
  thinkingStarted : Bool
  toolCalls : List OAIToolCall
deriving DecidableEq, Repr

def initStreamState : StreamState := ⟨false, []⟩

/-- The body of the `for (const part of parts)` loop in
`parseAndEmitStreamChunk`, for a single part. -/
def processPart (s : StreamState) (p : Json) : StreamState × List StreamEvent :=
  if p.get "thought" = some (Json.bool true) then
    let content := match p.get "text" with
      | some v => if v.truthy then v else Json.str ""
      | none => Json.str ""
    if s.thinkingStarted then (s, [.thinkingDelta content])
    else ({ s with thinkingStarted := true }, [.thinkingStart, .thinkingDelta content])
  else
    match p.get "text" with
    | some t =>
      if s.thinkingStarted then
        ({ s with thinkingStarted := false }, [.thinkingEnd, .textDelta t])
      else (s, [.textDelta t])
    | none =>
      match p.get "functionCall" with
      | some fc =>
        if fc.truthy then
          ({ s with toolCalls := s.toolCalls ++ [convertToToolCall fc] }, [])
        else (s, [])
      | none => (s, [])

def processParts (s : StreamState) : List Json → StreamState × List StreamEvent
  | [] => (s, [])
  | p :: ps =>
    let r1 := processPart s p
    let r2 := processParts r1.1 ps
    (r2.1, r1.2 ++ r2.2)

/-- The chain `data.response?.candidates?.[0]?.content?.parts`. -/
def envelopeParts (data : Json) : Option Json :=
  oget (oget (oidx (oget (data.get "response") "candidates") 0) "content") "parts"

/-- The chain `data.response?.candidates?.[0]?.finishReason`. -/
def envelopeFinishReason (data : Json) : Option Json :=
  oget (oidx (oget (data.get "response") "candidates") 0) "finishReason"

/-- The tail of `parseAndEmitStreamChunk` after the part loop: when the
envelope carries a truthy `finishReason` and tool calls are buffered, close
any open thinking block and flush the buffer as one `tool_calls` event. -/
def afterParts (s : StreamState) (data : Json) (evs : List StreamEvent) :
    StreamState × List StreamEvent :=
  if otruthy (envelopeFinishReason data) ∧ s.toolCalls ≠ [] then
    let closing : List StreamEvent := if s.thinkingStarted then [.thinkingEnd] else []
    (⟨false, []⟩, evs ++ closing ++ [.toolCallsEvt s.toolCalls])
  else (s, evs)

/-- Processing of one successfully parsed envelope.  A truthy `parts`
value that is neither an array nor a string makes `for..of` throw; the
exception is swallowed by the surrounding `try`, so the whole line has no
effect.  A string iterates its characters, none of which has `thought`,
`text` or `functionCall`, so it behaves like an empty part list. -/
def envelopeStep (s : StreamState) (data : Json) : StreamState × List StreamEvent :=
  match envelopeParts data with
  | some (Json.arr ps) =>
    let r := processParts s ps
    afterParts r.1 data r.2
  | some (Json.str _) => afterParts s data []
  | some v => if v.truthy then (s, []) else afterParts s data []
  | none => afterParts s data []

def dataMarker : List Char := "data: ".data

/-- `parseAndEmitStreamChunk(line, state, callback)`: lines without the
`data: ` marker are ignored; a payload that fails `JSON.parse` (or a
`null` payload, whose first property access throws) is swallowed. -/
def emitLine (s : StreamState) (line : List Char) : StreamState × List StreamEvent :=
  if dataMarker.isPrefixOf line then
    match parseJson (line.drop 6) with
    | some data => if data = Json.null then (s, []) else envelopeStep s data
    | none => (s, [])
  else (s, [])

/-- `lines.forEach(line => parseAndEmitStreamChunk(line, state, callback))`. -/
def processLines (s : StreamState) : List (List Char) → StreamState × List StreamEvent
  | [] => (s, [])
  | l :: ls =>
    let r1 := emitLine s l
    let r2 := processLines r1.1 ls
    (r2.1, r1.2 ++ r2.2)

/-- JavaScript `String.prototype.split('\n')`: the resulting list is never
empty and its segments contain no `'\n'`. -/
def splitOnNl : List Char → List (List Char)
  | [] => [[]]
  | c :: cs =>
    if c = '\n' then [] :: splitOnNl cs
    else
      match splitOnNl cs with
      | [] => [[c]]
      | l :: ls => (c :: l) :: ls

/-- The line-buffering state of `generateAssistantResponse`: the retained
partial line plus the per-stream interpreter state. -/
structure FeedState where
  buffer : List Char
  ss : StreamState
deriving DecidableEq, Repr

def initFeedState : FeedState := ⟨[], initStreamState⟩

/-- `processChunk(chunk)` from `generateAssistantResponse`: append the
chunk to the buffer, split on newlines, process every complete line and
retain the trailing partial line. -/
def processChunk (fs : FeedState) (chunk : List Char) : FeedState × List StreamEvent :=
  let segs := splitOnNl (fs.buffer ++ chunk)
  let r := processLines fs.ss segs.dropLast
  (⟨segs.getLastD [], r.1⟩, r.2)

/-- Feeding a sequence of chunks one `processChunk` call at a time,
accumulating the emitted events. -/
def feedChunks (a : FeedState × List StreamEvent) : List (List Char) → FeedState × List StreamEvent
  | [] => a
  | ch :: chs =>
    let r := processChunk a.1 ch
    feedChunks (r.1, a.2 ++ r.2) chs

/-! ### Chunk-boundary analysis

`processChunk` is shown equivalent to a character-at-a-time machine
(`stepChar`), from which chunk-boundary independence of the decoded
character stream follows. -/

/-- One character of buffering: a newline completes the buffered line and
hands it to the interpreter, any other character is appended. -/
def stepChar (a : FeedState × List StreamEvent) (c : Char) : FeedState × List StreamEvent :=
  if c = '\n' then
    let r := emitLine a.1.ss a.1.buffer
    (⟨[], r.1⟩, a.2 ++ r.2)
  else (⟨a.1.buffer ++ [c], a.1.ss⟩, a.2)

def feedChars (a : FeedState × List StreamEvent) (cs : List Char) :
    FeedState × List StreamEvent :=
  cs.foldl stepChar a

theorem splitOnNl_ne_nil (cs : List Char) : splitOnNl cs ≠ [] := by
  induction cs with
  | nil => simp [splitOnNl]
  | cons c cs ih =>
    simp only [splitOnNl]
    split
    · simp
    · cases h : splitOnNl cs <;> simp

theorem splitOnNl_no_nl (cs : List Char) (h : ∀ c ∈ cs, c ≠ '\n') :
    splitOnNl cs = [cs] := by
  induction cs with
  | nil => simp [splitOnNl]
  | cons c cs ih =>
    have hc : c ≠ '\n' := h c (by simp)
    have ih' := ih (fun x hx => h x (by simp [hx]))
    simp [splitOnNl, hc, ih']

theorem splitOnNl_append_nl (buf rest : List Char) (h : ∀ c ∈ buf, c ≠ '\n') :
    splitOnNl (buf ++ '\n' :: rest) = buf :: splitOnNl rest := by
  induction buf with
  | nil => simp [splitOnNl]
  | cons c buf ih =>
    have hc : c ≠ '\n' := h c (by simp)
    have ih' := ih (fun x hx => h x (by simp [hx]))
    simp only [List.cons_append, splitOnNl]
    rw [if_neg hc]
    simp only [List.append_eq]
    rw [ih']

theorem mem_splitOnNl_no_nl (cs : List Char) :
    ∀ l ∈ splitOnNl cs, ∀ c ∈ l, c ≠ '\n' := by
  induction cs with
  | nil => simp [splitOnNl]
  | cons c cs ih =>
    simp only [splitOnNl]
    by_cases hc : c = '\n'
    · simp only [hc, if_pos rfl]
      intro l hl
      rcases List.mem_cons.mp hl with h1 | h1
      · simp [h1]
      · exact ih l h1
    · simp only [if_neg hc]
      cases hsp : splitOnNl cs with
      | nil => exact absurd hsp (splitOnNl_ne_nil cs)
      | cons l0 ls =>
        intro l hl
        rcases List.mem_cons.mp hl with h1 | h1
        · subst h1
          intro x hx
          rcases List.mem_cons.mp hx with h2 | h2
          · simpa [h2] using hc
          · exact ih l0 (by simp [hsp]) x h2
        · exact ih l (by simp [hsp, h1])

theorem getLastD_mem {α : Type} (l : List α) (d : α) (h : l ≠ []) :
    l.getLastD d ∈ l := by
  induction l with
  | nil => exact absurd rfl h
  | cons x xs ih =>
    cases xs with
    | nil => simp [List.getLastD]
    | cons y ys =>
      have := ih (by simp)
      simp only [List.getLastD] at this ⊢
      exact List.mem_cons_of_mem x this

/-- `processChunk` agrees with the character-at-a-time machine whenever the
retained buffer holds no newline (an invariant of both machines). -/
theorem processChunk_eq_feedChars (cs : List Char) :
    ∀ (buf : List Char) (s : StreamState) (acc : List StreamEvent),
      (∀ c ∈ buf, c ≠ '\n') →
      feedChars (⟨buf, s⟩, acc) cs
        = ((processChunk ⟨buf, s⟩ cs).1, acc ++ (processChunk ⟨buf, s⟩ cs).2) := by
  induction cs with
  | nil =>
    intro buf s acc h
    simp [feedChars, processChunk, splitOnNl_no_nl buf h, processLines, List.getLastD]
  | cons c cs ih =>
    intro buf s acc h
    by_cases hc : c = '\n'
    · subst hc
      have step : feedChars (⟨buf, s⟩, acc) ('\n' :: cs)
          = feedChars (⟨[], (emitLine s buf).1⟩, acc ++ (emitLine s buf).2) cs := by
        simp [feedChars, stepChar]
      rw [step, ih [] (emitLine s buf).1 (acc ++ (emitLine s buf).2) (by simp)]
      have hsplit : splitOnNl (buf ++ '\n' :: cs) = buf :: splitOnNl cs :=
        splitOnNl_append_nl buf cs h
      cases hsp : splitOnNl cs with
      | nil => exact absurd hsp (splitOnNl_ne_nil cs)
      | cons l0 ls =>
        simp only [processChunk, hsplit, hsp, List.nil_append, List.dropLast,
          List.getLastD, processLines]
        cases ls with
        | nil => simp [processLines, List.getLastD, List.dropLast]
        | cons l1 ls' => simp [processLines, List.getLastD, List.dropLast]
    · have step : feedChars (⟨buf, s⟩, acc) (c :: cs)
          = feedChars (⟨buf ++ [c], s⟩, acc) cs := by
        simp [feedChars, stepChar, hc]
      rw [step, ih (buf ++ [c]) s acc]
      · have harr : buf ++ c :: cs = (buf ++ [c]) ++ cs := by
          simp
        simp only [processChunk, harr]
      · intro x hx
        rcases List.mem_append.mp hx with h1 | h1
        · exact h x h1
        · have hxc : x = c := by simpa using h1
          simpa [hxc] using hc

theorem processChunk_buffer_no_nl (fs : FeedState) (ch : List Char) :
    ∀ c ∈ (processChunk fs ch).1.buffer, c ≠ '\n' := by
  intro c hc
  have hne := splitOnNl_ne_nil (fs.buffer ++ ch)
  have hmem := getLastD_mem (splitOnNl (fs.buffer ++ ch)) [] hne
  exact mem_splitOnNl_no_nl (fs.buffer ++ ch) _ hmem c hc

theorem feedChunks_eq_feedChars (chunks : List (List Char)) :
    ∀ (fs : FeedState) (acc : List StreamEvent),
      (∀ c ∈ fs.buffer, c ≠ '\n') →
      feedChunks (fs, acc) chunks = feedChars (fs, acc) chunks.flatten := by
  induction chunks with
  | nil => intro fs acc _; simp [feedChunks, feedChars]
  | cons ch chs ih =>
    intro fs acc h
    obtain ⟨buf, s⟩ := fs
    have h1 := processChunk_eq_feedChars ch buf s acc h
    have h2 := processChunk_buffer_no_nl ⟨buf, s⟩ ch
    calc feedChunks (⟨buf, s⟩, acc) (ch :: chs)
        = feedChunks ((processChunk ⟨buf, s⟩ ch).1,
            acc ++ (processChunk ⟨buf, s⟩ ch).2) chs := by
          simp [feedChunks]
      _ = feedChars ((processChunk ⟨buf, s⟩ ch).1,
            acc ++ (processChunk ⟨buf, s⟩ ch).2) chs.flatten := ih _ _ h2
      _ = feedChars (feedChars (⟨buf, s⟩, acc) ch) chs.flatten := by rw [h1]
      _ = feedChars (⟨buf, s⟩, acc) (ch :: chs).flatten := by
          simp [feedChars, List.foldl_append]

/-! ### Byte-level chunk delivery

The axios branch of `generateAssistantResponse` decodes every network
chunk independently: `response.data.on('data', chunk =>
processChunk(chunk.toString()))`.  `Buffer.prototype.toString('utf8')` is
modelled by a WHATWG UTF-8 decoder with U+FFFD replacement; an incomplete
multi-byte sequence at a chunk edge therefore decodes to replacement
characters. -/

def isContByte (b : Nat) : Bool := 0x80 ≤ b ∧ b ≤ 0xBF

/-- Model of `Buffer.prototype.toString('utf8')` on one chunk: WHATWG
UTF-8 decoding with maximal-subpart U+FFFD replacement.  The fuel is an
upper bound on the byte count, so it never runs out. -/
def utf8Decode : Nat → List Nat → List Char
  | 0, _ => []
  | _ + 1, [] => []
  | fuel + 1, b :: rest =>
    if b ≤ 0x7F then Char.ofNat b :: utf8Decode fuel rest
    else if 0xC2 ≤ b ∧ b ≤ 0xDF then
      match rest with
      | b2 :: r2 =>
        if isContByte b2 then
          Char.ofNat ((b - 0xC0) * 0x40 + (b2 - 0x80)) :: utf8Decode fuel r2
        else '�' :: utf8Decode fuel rest
      | [] => ['�']
    else if 0xE0 ≤ b ∧ b ≤ 0xEF then
      let lo2 := if b = 0xE0 then 0xA0 else 0x80
      let hi2 := if b = 0xED then 0x9F else 0xBF
      match rest with
      | b2 :: b3 :: r3 =>
        if lo2 ≤ b2 ∧ b2 ≤ hi2 then
          if isContByte b3 then
            Char.ofNat ((b - 0xE0) * 0x1000 + (b2 - 0x80) * 0x40 + (b3 - 0x80)) ::
              utf8Decode fuel r3
          else '�' :: utf8Decode fuel (b3 :: r3)
        else '�' :: utf8Decode fuel rest
      | [b2] => if lo2 ≤ b2 ∧ b2 ≤ hi2 then ['�'] else '�' :: utf8Decode fuel rest
      | [] => ['�']
    else if 0xF0 ≤ b ∧ b ≤ 0xF4 then
      let lo2 := if b = 0xF0 then 0x90 else 0x80
      let hi2 := if b = 0xF4 then 0x8F else 0xBF
      match rest with
      | b2 :: b3 :: b4 :: r4 =>
        if lo2 ≤ b2 ∧ b2 ≤ hi2 then
          if isContByte b3 then
            if isContByte b4 then
              Char.ofNat ((b - 0xF0) * 0x40000 + (b2 - 0x80) * 0x1000 +
                  (b3 - 0x80) * 0x40 + (b4 - 0x80)) :: utf8Decode fuel r4
            else '�' :: utf8Decode fuel (b4 :: r4)
          else '�' :: utf8Decode fuel (b3 :: b4 :: r4)
        else '�' :: utf8Decode fuel rest
      | [b2, b3] =>
        if lo2 ≤ b2 ∧ b2 ≤ hi2 then
          if isContByte b3 then ['�'] else '�' :: utf8Decode fuel [b3]
        else '�' :: utf8Decode fuel rest
      | [b2] => if lo2 ≤ b2 ∧ b2 ≤ hi2 then ['�'] else '�' :: utf8Decode fuel rest
      | [] => ['�']
    else '�' :: utf8Decode fuel rest

def decodeChunk (bytes : List Nat) : List Char :=
  utf8Decode (bytes.length + 1) bytes

/-- The axios delivery path: every byte chunk is decoded on its own and
fed to `processChunk`. -/
def byteFeed (chunks : List (List Nat)) : FeedState × List StreamEvent :=
  feedChunks (initFeedState, []) (chunks.map decodeChunk)

def asciiBytes (s : String) : List Nat := s.data.map Char.toNat

/-- UTF-8 bytes of an SSE line whose text payload is `"é"` (`0xC3 0xA9`),
split right between the two bytes of `é`. -/
def exChunkA : List Nat :=
  asciiBytes "data: \x7b\"response\":\x7b\"candidates\":[\x7b\"content\":\x7b\"parts\":[\x7b\"text\":\"" ++ [0xC3]

def exChunkB : List Nat :=
  0xA9 :: asciiBytes "\"\x7d]\x7d\x7d]\x7d\x7d" ++ [10]

/-! ### Request Builder (`src/utils/converters/common.js`, `claude.js`)

Client messages are modelled by a typed `ClaudeMessage`; backend turns by
`GMessage`.  The converter modules import helpers from files that are not
part of the provided sources (`utils.js`, `thoughtSignatureCache.js`,
`toolNameCache.js`, `toolConverter.js`, the resolved configuration): these
are modelled from the spec as an abstract `Externals`/`CoreConfig` record
over which every theorem quantifies. -/

/-- JS truthiness of a nullable string (`null`/`undefined`/`''` falsy). -/
def strTruthy : Option String → Bool
  | none => false
  | some s => s ≠ ""

/-- JS `a || b` on nullable strings. -/
def jsOr (a b : Option String) : Option String :=
  if strTruthy a then a else b

/-- JS `a || d` on a nullable string with string default. -/
def strOr (a : Option String) (d : String) : String :=
  match a with
  | some s => if s ≠ "" then s else d
  | none => d

/-- One signature-cache entry: `{ signature, content }`. -/
structure SigEntry where
  signature : Option String
  content : Option String
deriving DecidableEq, Repr

/-- Result of `getSignatureContext`. -/
structure SignatureContext where
  reasoningSignature : Option String
  reasoningContent : String
  toolSignature : Option String
  toolContent : String
deriving DecidableEq, Repr

/-- Modelled from the spec: the configuration surface consumed by the core
(§6 of the design; the resolved config module with these fields is not
among the provided sources). -/
structure CoreConfig where
  useFallbackSignature : Bool
  cacheThinking : Bool
  officialSystemPrompt : String
  systemInstruction : String
  useContextSystemPrompt : Bool
  mergeSystemPrompt : Bool
  officialPromptPosition : String

/-- An entry of the client tool list (only the name is inspected by the
converter itself; the remainder is opaque). -/
structure ClaudeTool where
  name : Option String
  rest : Json
deriving DecidableEq, Repr

/-- A generation-config object: the converter only ever touches
`candidateCount`; all other fields are opaque. -/
structure GenConfig where
  candidateCount : Option Nat
  rest : Json
deriving DecidableEq, Repr

/-- Modelled from the spec: helper modules imported by the converters but
absent from the provided sources (`thoughtSignatureCache.js`, `utils.js`,
`toolNameCache.js`, `toolConverter.js`).  Their behaviour is abstract;
every theorem quantifies over them. -/
structure Externals where
  isImageModel : String → Bool
  shouldCacheSignature : Bool → Bool → Bool
  getSignature : String → String → Bool → Option SigEntry
  getThoughtSignatureForModel : String → Option String
  getToolSignatureForModel : String → Option String
  sanitizeToolName : String → String

/-- `getSignatureContext(sessionId, actualModelName, hasTools)` from
`common.js`: a cached `{signature, content}` entry serves both the
reasoning and the tool context; otherwise the configured fallback
signatures apply (the tool fallback only when tools are present).
`config.cacheThinking ? ' ' : ' '` is `' '` in both branches. -/
def getSignatureContext (ext : Externals) (cfg : CoreConfig)
    (sessionId actualModelName : String) (hasTools : Bool) : SignatureContext :=
  let isImage := ext.isImageModel actualModelName
  let shouldGetCached := ext.shouldCacheSignature hasTools isImage
  let cachedEntry := if shouldGetCached then ext.getSignature sessionId actualModelName hasTools
    else none
  match cachedEntry with
  | some e =>
    { reasoningSignature := e.signature
      reasoningContent := strOr e.content " "
      toolSignature := e.signature
      toolContent := strOr e.content " " }
  | none =>
    if cfg.useFallbackSignature then
      { reasoningSignature := ext.getThoughtSignatureForModel actualModelName
        reasoningContent := " "
        toolSignature := if hasTools then ext.getToolSignatureForModel actualModelName else none
        toolContent := " " }
    else
      { reasoningSignature := none, reasoningContent := " "
        toolSignature := none, toolContent := " " }

/-- An item of a `tool_result` content list (only `text` items are read). -/
inductive TRItem where
  | text (t : String) : TRItem
  | nonText : TRItem
deriving DecidableEq, Repr

/-- The `content` of a `tool_result` item: a string, an item list, or
anything else (yielding an empty result string). -/
inductive TRContent where
  | str (s : String) : TRContent
  | items (xs : List TRItem) : TRContent
  | absent : TRContent
deriving DecidableEq, Repr

/-- The `source` of an `image` content item. -/
structure ImgSource where
  srcType : String
  mediaType : Option String
  data : String
deriving DecidableEq, Repr

/-- One typed segment of a client (Claude-protocol) message.  Unknown
segment types are `otherItem`, which every converter ignores. -/
inductive ClaudeItem where
  | text (t : String) : ClaudeItem
  | thinking (thinking : String) (signature : Option String) : ClaudeItem
  | toolUse (id : String) (name : String) (input : Option Json)
      (signature : Option String) : ClaudeItem
  | image (source : Option ImgSource) : ClaudeItem
  | toolResult (toolUseId : String) (content : TRContent) : ClaudeItem
  | otherItem : ClaudeItem
deriving DecidableEq, Repr

/-- The `content` of a client message: plain text, a segment list, or
anything else. -/
inductive ClaudeContent where
  | str (s : String) : ClaudeContent
  | items (xs : List ClaudeItem) : ClaudeContent
  | other : ClaudeContent
deriving DecidableEq, Repr

structure ClaudeMessage where
  role : String
  content : ClaudeContent
deriving DecidableEq, Repr

/-- One part of a backend turn. -/
inductive GPart where
  | text (t : String) : GPart
  | thought (t : String) (sig : Option String) : GPart
  | functionCall (id : String) (name : String) (args : Json) (sig : Option String) : GPart
  | functionResponse (id : String) (name : String) (output : String) : GPart
  | inlineData (mimeType : String) (data : String) : GPart
deriving DecidableEq, Repr

inductive GRole where
  | user : GRole
  | model : GRole
deriving DecidableEq, Repr

/-- One backend turn (`{role, parts}`). -/
structure GMessage where
  role : GRole
  parts : List GPart
deriving DecidableEq, Repr

def GPart.isFunctionResponse : GPart → Bool
  | .functionResponse _ _ _ => true
  | _ => false

def GPart.isThought : GPart → Bool
  | .thought _ _ => true
  | _ => false

/-- `createThoughtPart(text, signature)`: `{text: text || ' ', thought:
true}` plus `thoughtSignature` when the signature is truthy. -/
def createThoughtPart (text : String) (signature : Option String) : GPart :=
  .thought (if text = "" then " " else text)
    (if strTruthy signature then signature else none)

/-- `createFunctionCallPart(id, name, args, signature)`.  The source
stringifies the input and parses it back (`JSON.parse ∘ JSON.stringify`,
the identity on JSON data); the model passes the value through. -/
def createFunctionCallPart (id name : String) (args : Json) (signature : Option String) :
    GPart :=
  .functionCall id name args (if strTruthy signature then signature else none)

/-- `processToolName`: sanitize the name.  The reverse-mapping write to the
tool-name cache is a side effect not observable in the built request. -/
def processToolName (ext : Externals) (originalName : String) : String :=
  ext.sanitizeToolName originalName

/-- `extractImagesFromClaudeContent(content)`. -/
def extractImagesFromClaudeContent (content : ClaudeContent) : String × List GPart :=
  match content with
  | .str s => (s, [])
  | .items xs =>
    xs.foldl (fun acc item =>
      match item with
      | .text t => (acc.1 ++ t, acc.2)
      | .image (some src) =>
        if src.srcType = "base64" ∧ src.data ≠ "" then
          (acc.1, acc.2 ++ [.inlineData (strOr src.mediaType "image/png") src.data])
        else acc
      | _ => acc) ("", [])
  | .other => ("", [])

/-- `pushUserMessage(extracted, antigravityMessages)`. -/
def pushUserMessage (extracted : String × List GPart) (msgs : List GMessage) :
    List GMessage :=
  msgs ++ [⟨.user, .text (if extracted.1 = "" then " " else extracted.1) :: extracted.2⟩]

/-- `findFunctionNameById(toolCallId, antigravityMessages)`: scan turns
from the last one backwards; within a `model` turn scan parts forwards. -/
def findInParts (toolCallId : String) : List GPart → Option String
  | [] => none
  | .functionCall id name _ _ :: ps =>
    if id = toolCallId then some name else findInParts toolCallId ps
  | _ :: ps => findInParts toolCallId ps

def findFunctionNameByIdRev (toolCallId : String) : List GMessage → String
  | [] => ""
  | m :: rest =>
    if m.role = .model then
      match findInParts toolCallId m.parts with
      | some n => n
      | none => findFunctionNameByIdRev toolCallId rest
    else findFunctionNameByIdRev toolCallId rest

def findFunctionNameById (toolCallId : String) (msgs : List GMessage) : String :=
  findFunctionNameByIdRev toolCallId msgs.reverse

/-- `pushFunctionResponse(toolCallId, functionName, resultContent,
antigravityMessages)`. -/
def pushFunctionResponse (toolCallId functionName resultContent : String)
    (msgs : List GMessage) : List GMessage :=
  let fr : GPart := .functionResponse toolCallId functionName resultContent
  match msgs.getLast? with
  | some last =>
    if last.role = .user ∧ last.parts.any GPart.isFunctionResponse then
      msgs.dropLast ++ [⟨last.role, last.parts ++ [fr]⟩]
    else msgs ++ [⟨.user, [fr]⟩]
  | none => msgs ++ [⟨.user, [fr]⟩]

/-- `pushModelMessage({parts, toolCalls, hasContent}, antigravityMessages)`. -/
def pushModelMessage (parts toolCalls : List GPart) (hasContent : Bool)
    (msgs : List GMessage) : List GMessage :=
  match msgs.getLast? with
  | some last =>
    if last.role = .model ∧ toolCalls ≠ [] ∧ ¬hasContent then
      msgs.dropLast ++ [⟨last.role, last.parts ++ toolCalls⟩]
    else msgs ++ [⟨.model, parts ++ toolCalls⟩]
  | none => msgs ++ [⟨.model, parts ++ toolCalls⟩]

/-- `item.input || {}` for a `tool_use` input. -/
def jsonInputOr (input : Option Json) : Json :=
  match input with
  | some v => if v.truthy then v else Json.obj []
  | none => Json.obj []

/-- Accumulator of the content loop of `handleClaudeAssistantMessage`. -/
structure AssistantCollect where
  textContent : String
  thinkingContent : String
  toolCalls : List GPart
  messageSignature : Option String
deriving DecidableEq, Repr

def emptyCollect : AssistantCollect := ⟨"", "", [], none⟩

/-- One iteration of the content loop of `handleClaudeAssistantMessage`
(lines 56-72 of `claude.js`). -/
def collectStep (ext : Externals) (enableThinking : Bool) (ctx : SignatureContext)
    (acc : AssistantCollect) (item : ClaudeItem) : AssistantCollect :=
  match item with
  | .text t => { acc with textContent := acc.textContent ++ t }
  | .thinking th sig =>
    let acc1 := if th ≠ "" then { acc with thinkingContent := acc.thinkingContent ++ th }
      else acc
    if ¬ strTruthy acc1.messageSignature ∧ strTruthy sig then
      { acc1 with messageSignature := sig }
    else acc1
  | .toolUse id name input sig =>
    let safeName := processToolName ext name
    let signature := if enableThinking then
        jsOr sig (jsOr ctx.toolSignature ctx.reasoningSignature)
      else none
    { acc with toolCalls := acc.toolCalls ++
        [createFunctionCallPart id safeName (jsonInputOr input) signature] }
  | _ => acc

/-- The content loop of `handleClaudeAssistantMessage` (lines 56-72 of
`claude.js`). -/
def collectAssistantItems (ext : Externals) (enableThinking : Bool)
    (ctx : SignatureContext) (content : ClaudeContent) : AssistantCollect :=
  match content with
  | .str s => { emptyCollect with textContent := s }
  | .items xs => xs.foldl (collectStep ext enableThinking ctx) emptyCollect
  | .other => emptyCollect

def clearThoughtSignature : GPart → GPart
  | .thought t _ => .thought t none
  | .functionCall i n a _ => .functionCall i n a none
  | p => p

/-- Lines 74-97 of `claude.js`: the `parts` array of the pending model
turn (thought part, then text part) together with `hasContent`. -/
def assistantParts (enableThinking : Bool) (ctx : SignatureContext)
    (col : AssistantCollect) : List GPart × Bool :=
  let hasContent := col.textContent ≠ "" ∧ col.textContent.trim ≠ ""
  let thoughtPart : List GPart :=
    if enableThinking then
      let signature := jsOr col.messageSignature (jsOr ctx.reasoningSignature ctx.toolSignature)
      if strTruthy signature then
        let reasoningText :=
          if col.thinkingContent.length > 0 then col.thinkingContent
          else if signature = ctx.reasoningSignature then
            (if ctx.reasoningContent ≠ "" then ctx.reasoningContent else " ")
          else if signature = ctx.toolSignature then
            (if ctx.toolContent ≠ "" then ctx.toolContent else " ")
          else " "
        [createThoughtPart reasoningText signature]
      else []
    else []
  let parts := thoughtPart ++ (if hasContent then [GPart.text col.textContent.trimRight] else [])
  let parts := if ¬ enableThinking then
      match parts with
      | p :: ps => clearThoughtSignature p :: ps
      | [] => []
    else parts
  (parts, hasContent)

/-- `handleClaudeAssistantMessage(message, antigravityMessages,
enableThinking, actualModelName, sessionId, hasTools)`. -/
def handleClaudeAssistantMessage (ext : Externals) (cfg : CoreConfig)
    (content : ClaudeContent) (msgs : List GMessage) (enableThinking : Bool)
    (actualModelName sessionId : String) (hasTools : Bool) : List GMessage :=
  let ctx := getSignatureContext ext cfg sessionId actualModelName hasTools
  let col := collectAssistantItems ext enableThinking ctx content
  let pr := assistantParts enableThinking ctx col
  pushModelMessage pr.1 col.toolCalls pr.2 msgs

/-- The `resultContent` computation of `handleClaudeToolResult`: a string
is used as is, an item list keeps the `text` items joined, anything else
yields an empty string. -/
def toolResultContentString : TRContent → String
  | .str s => s
  | .items ys =>
    (ys.filterMap (fun y => match y with | .text t => some t | .nonText => none)).foldl
      (· ++ ·) ""
  | .absent => ""

/-- `handleClaudeToolResult(message, antigravityMessages)`. -/
def handleClaudeToolResult (content : ClaudeContent) (msgs : List GMessage) :
    List GMessage :=
  match content with
  | .items xs =>
    xs.foldl (fun msgs item =>
      match item with
      | .toolResult toolUseId trc =>
        let functionName := findFunctionNameById toolUseId msgs
        pushFunctionResponse toolUseId functionName (toolResultContentString trc) msgs
      | _ => msgs) msgs
  | _ => msgs

def isToolResultItem : ClaudeItem → Bool
  | .toolResult _ _ => true
  | _ => false

/-- `claudeMessageToAntigravity(claudeMessages, enableThinking,
actualModelName, sessionId, hasTools)`. -/
def claudeMessageToAntigravity (ext : Externals) (cfg : CoreConfig)
    (claudeMessages : List ClaudeMessage) (enableThinking : Bool)
    (actualModelName sessionId : String) (hasTools : Bool) : List GMessage :=
  claudeMessages.foldl (fun msgs m =>
    if m.role = "user" then
      match m.content with
      | .items xs =>
        if xs.any isToolResultItem then handleClaudeToolResult m.content msgs
        else pushUserMessage (extractImagesFromClaudeContent m.content) msgs
      | c => pushUserMessage (extractImagesFromClaudeContent c) msgs
    else if m.role = "assistant" then
      handleClaudeAssistantMessage ext cfg m.content msgs enableThinking actualModelName
        sessionId hasTools
    else msgs) []

/-- `hasWebSearchTool(tools)`. -/
def hasWebSearchTool (tools : List ClaudeTool) : Bool :=
  tools.any (fun t => t.name = some "web_search")

/-- A system-instruction part after cleaning (only the fields the backend
accepts; the typed model assumes `text` fields are strings). -/
structure SysPart where
  text : Option String
  inlineData : Option Json
  fileData : Option Json
deriving DecidableEq, Repr

/-- The caller-supplied system prompt: a string, a part array, an object
with a `parts` field, or anything else (ignored). -/
inductive UserSystemPrompt where
  | str (s : String) : UserSystemPrompt
  | arr (ps : List SysPart) : UserSystemPrompt
  | objWithParts (ps : List SysPart) : UserSystemPrompt
  | absent : UserSystemPrompt
  | other : UserSystemPrompt
deriving DecidableEq, Repr

/-- `cleanSystemPart(part)` composed with the `p !== null` filter:
a part survives iff it has at least one supported field. -/
def cleanSystemPart (p : SysPart) : Option SysPart :=
  if p.text.isSome ∨ p.inlineData.isSome ∨ p.fileData.isSome then some p else none

def textPart (s : String) : SysPart := ⟨some s, none, none⟩

/-- `buildSystemPromptParts(userSystemPrompt)` from `common.js`. -/
def buildSystemPromptParts (cfg : CoreConfig) (userSystemPrompt : UserSystemPrompt) :
    List SysPart :=
  let userParts : List SysPart :=
    match userSystemPrompt with
    | .str s => if s.trim ≠ "" then [textPart s.trim] else []
    | .arr ps => ps.filterMap cleanSystemPart
    | .objWithParts ps => ps.filterMap cleanSystemPart
    | _ => []
  let proxyParts : List SysPart :=
    (if cfg.systemInstruction.trim ≠ "" then [textPart cfg.systemInstruction.trim] else [])
      ++ (if cfg.useContextSystemPrompt ∧ userParts ≠ [] then userParts else [])
  let officialParts : List SysPart :=
    if cfg.officialSystemPrompt.trim ≠ "" then [textPart cfg.officialSystemPrompt.trim] else []
  if cfg.officialPromptPosition = "before" then officialParts ++ proxyParts
  else proxyParts ++ officialParts

structure SystemInstructionObj where
  role : String
  parts : List SysPart
deriving DecidableEq, Repr

/-- `buildSystemInstruction(userSystemPrompt)` from `common.js`. -/
def buildSystemInstruction (cfg : CoreConfig) (userSystemPrompt : UserSystemPrompt) :
    Option SystemInstructionObj :=
  let parts := buildSystemPromptParts cfg userSystemPrompt
  if parts = [] then none
  else if cfg.mergeSystemPrompt then
    let mergedText := String.intercalate "\n\n"
      ((parts.map (fun p => p.text.getD "")).filter (fun t => t.trim ≠ ""))
    some ⟨"user", [textPart mergedText]⟩
  else some ⟨"user", parts⟩

/-- Modelled from the spec: `src/utils/idGenerator.js` is not among the
provided sources; the per-request id is modelled as an opaque constant. -/
def generateRequestId : String := "request_generated"

/-- The fixed backend search-tool descriptor substituted for the client
tool list on web-search requests. -/
def googleSearchToolJson : Json :=
  Json.obj [("googleSearch", Json.obj [("enhancedContent",
    Json.obj [("imageSearch", Json.obj [("maxResultCount", Json.num "5")])])])]

/-- `{ functionCallingConfig: { mode: 'VALIDATED' } }`. -/
def functionCallingConfigJson : Json :=
  Json.obj [("functionCallingConfig", Json.obj [("mode", Json.str "VALIDATED")])]

/-- The `request` payload of a backend request. -/
structure RequestPayload where
  contents : List GMessage
  generationConfig : Option GenConfig
  sessionId : String
  tools : Option (List Json)
  toolConfig : Option Json
  systemInstruction : Option SystemInstructionObj
deriving DecidableEq, Repr

structure BackendRequest where
  project : String
  requestId : String
  request : RequestPayload
  model : String
  userAgent : String
  requestType : String
deriving DecidableEq, Repr

/-- The token fields read by the request builder. -/
structure BackendToken where
  projectId : String
  sessionId : String
deriving DecidableEq, Repr

/-- `buildRequestBody({contents, tools, generationConfig, sessionId,
systemInstruction, isWebSearch}, token, actualModelName)` from
`common.js`. -/
def buildRequestBody (contents : List GMessage) (tools : List Json)
    (generationConfig : Option GenConfig) (sessionId : String)
    (systemInstruction : UserSystemPrompt) (isWebSearch : Bool)
    (token : BackendToken) (actualModelName : String) (cfg : CoreConfig) :
    BackendRequest :=
  let hasTools := tools ≠ []
  let finalModel := if isWebSearch then "gemini-2.5-flash" else actualModelName
  let requestType := if isWebSearch then "web_search" else "agent"
  let base : RequestPayload :=
    { contents := contents, generationConfig := generationConfig, sessionId := sessionId
      tools := none, toolConfig := none, systemInstruction := none }
  let withTools : RequestPayload :=
    if isWebSearch then
      { base with tools := some [googleSearchToolJson]
                  generationConfig :=
                    base.generationConfig.map (fun g => { g with candidateCount := some 1 }) }
    else if hasTools then
      { base with tools := some tools, toolConfig := some functionCallingConfigJson }
    else base
  let withSys : RequestPayload :=
    { withTools with systemInstruction := buildSystemInstruction cfg systemInstruction }
  { project := token.projectId
    requestId := generateRequestId
    request := withSys
    model := finalModel
    userAgent := "antigravity"
    requestType := requestType }

/-- `generateClaudeRequestBody(claudeMessages, modelName, parameters,
claudeTools, systemPrompt, token)` from `claude.js`.  The helpers imported
from the absent `utils.js`/`toolConverter.js` — `modelMapping`,
`isEnableThinking`, `convertClaudeToolsToAntigravity`,
`generateGenerationConfig` — are explicit function parameters (modelled
from the spec). -/
def generateClaudeRequestBody (ext : Externals) (cfg : CoreConfig)
    (modelMapping : String → String) (isEnableThinking : String → Bool)
    (convertClaudeToolsToAntigravity : List ClaudeTool → String → String → List Json)
    (generateGenerationConfig : Json → Bool → String → GenConfig)
    (claudeMessages : List ClaudeMessage) (modelName : String) (parameters : Json)
    (claudeTools : List ClaudeTool) (systemPrompt : UserSystemPrompt)
    (token : BackendToken) : BackendRequest :=
  let enableThinking := isEnableThinking modelName
  let actualModelName := modelMapping modelName
  let isWebSearch := hasWebSearchTool claudeTools
  let tools := if isWebSearch then []
    else convertClaudeToolsToAntigravity claudeTools token.sessionId actualModelName
  let hasTools := tools ≠ []
  buildRequestBody
    (claudeMessageToAntigravity ext cfg claudeMessages enableThinking actualModelName
      token.sessionId hasTools)
    tools
    (some (generateGenerationConfig parameters enableThinking actualModelName))
    token.sessionId systemPrompt isWebSearch token actualModelName cfg

/-! ### Grounding detection (`src/utils/webSearchGrounding.js`) -/

/-- `Array.isArray(x) && x.length > 0` on a possibly-absent value. -/
def isNonemptyArr (o : Option Json) : Bool :=
  match o with
  | some (Json.arr (_ :: _)) => true
  | _ => false

/-- JS `typeof x === 'object'` on a JSON value (`null` and arrays are
objects; primitives are not). -/
def jsTypeofObject : Json → Bool
  | .null => true
  | .arr _ => true
  | .obj _ => true
  | _ => false

/-- `hasGroundingData(candidate)` from `webSearchGrounding.js`. -/
def hasGroundingData (candidate : Option Json) : Bool :=
  match candidate with
  | none => false
  | some cand =>
    if ¬ cand.truthy then false
    else
      let meta := cand.get "groundingMetadata"
      let chunks := cand.get "groundingChunks"
      let supports := cand.get "groundingSupports"
      let metaHit := match meta with
        | some m =>
          if m.truthy ∧ jsTypeofObject m then
            isNonemptyArr (m.get "webSearchQueries")
              || isNonemptyArr (m.get "groundingChunks")
              || isNonemptyArr (m.get "groundingSupports")
          else false
        | none => false
      metaHit || isNonemptyArr chunks || isNonemptyArr supports

/-- The spec's characterisation of grounding detection, written from the
claim: a candidate is grounded exactly when it carries at least one
web-search query, grounding chunk, or grounding support, inside the
metadata object or directly on the candidate; an absent candidate or an
empty metadata object does not count. -/
def hasGroundingSpec (candidate : Option Json) : Bool :=
  match candidate with
  | none => false
  | some cand =>
    cand.truthy &&
      (isNonemptyArr ((cand.get "groundingMetadata").bind (·.get "webSearchQueries"))
        || isNonemptyArr ((cand.get "groundingMetadata").bind (·.get "groundingChunks"))
        || isNonemptyArr ((cand.get "groundingMetadata").bind (·.get "groundingSupports"))
        || isNonemptyArr (cand.get "groundingChunks")
        || isNonemptyArr (cand.get "groundingSupports"))

/-! ### Error classification (`handleApiError` in `src/api/client.js`) -/

/-- The `data` of an upstream error response: absent, a decoded JS value,
or a readable stream of body chunks.  The duck-typed
`error.response.data.readable` probe, which distinguishes streams, is
modelled by the variant. -/
inductive ErrData where
  | absent : ErrData
  | val (j : Json) : ErrData
  | streamD (chunks : List String) : ErrData
deriving DecidableEq, Repr

structure ErrResponse where
  status : Option Nat
  data : ErrData
deriving DecidableEq, Repr

/-- The error value reaching `handleApiError`: an axios error (with
`response`) or a `{status, message}` rejection from the native requester. -/
structure ApiErrorInput where
  response : Option ErrResponse
  status : Option Nat
  message : String
deriving DecidableEq, Repr

/-- JS truthiness of a nullable number (`0` is falsy). -/
def truthyNat : Option Nat → Option Nat
  | some 0 => none
  | some n => some n
  | none => none

/-- `error.response?.status || error.status` (the `|| 'Unknown'` default
is applied at display time). -/
def statusVal (e : ApiErrorInput) : Option Nat :=
  match truthyNat (e.response.bind (·.status)) with
  | some n => some n
  | none => truthyNat e.status

/-- Template-stringification of a truthy primitive body. -/
def jsonPrimToString : Json → String
  | .str s => s
  | .num raw => raw
  | .bool true => "true"
  | .bool false => "false"
  | .null => "null"
  | .arr _ => ""
  | .obj _ => ""

/-- The `errorBody` computation of `handleApiError`: a streamed body is
concatenated, an object body is pretty-printed with
`JSON.stringify(data, null, 2)`, a truthy primitive body is used as is,
otherwise `error.message` stands in. -/
def apiErrorBody (e : ApiErrorInput) : String :=
  match e.response with
  | none => e.message
  | some r =>
    match r.data with
    | .streamD chunks => String.join chunks
    | .val j =>
      if jsTypeofObject j then stringifyJsonPretty 0 j
      else if j.truthy then jsonPrimToString j
      else e.message
    | .absent => e.message

/-- The outcome of `handleApiError`: whether
`tokenManager.disableCurrentToken` ran, and the message of the error that
is always thrown (the function never returns normally). -/
structure ApiErrorResult where
  disabledAccount : Bool
  thrownMessage : String
deriving DecidableEq, Repr

/-- `handleApiError(error, token)` from `src/api/client.js`. -/
def handleApiError (e : ApiErrorInput) : ApiErrorResult :=
  let statusStr := match statusVal e with
    | some n => toString n
    | none => "Unknown"
  let errorBody := apiErrorBody e
  if statusVal e = some 403 then
    { disabledAccount := true
      thrownMessage := "该账号没有使用权限，已自动禁用。错误详情: " ++ errorBody }
  else
    { disabledAccount := false
      thrownMessage := "API请求失败 (" ++ statusStr ++ "): " ++ errorBody }

/-! ### Stream termination (`/v1/chat/completions` handler in
`src/server/index.js`) -/

def isToolCallsEvent : StreamEvent → Bool
  | .toolCallsEvt _ => true
  | _ => false

/-- The handler sets `hasToolCall` when any `tool_calls` event is emitted
and ends the stream with `endStream(..., hasToolCall ? 'tool_calls' :
'stop')`. -/
def streamFinishReason (events : List StreamEvent) : String :=
  if events.any isToolCallsEvent then "tool_calls" else "stop"

/-! ### Thinking-block bracketing -/

/-- The thinking-block automaton on emitted events, started with the
`thinkingStarted` flag: a block is opened only while closed, deltas occur
only while open, a close only while open, and text or tool-call frames
only while closed.  The result is the final flag, or `none` on a
violation. -/
def bracketRun : Bool → List StreamEvent → Option Bool
  | b, [] => some b
  | b, e :: es =>
    match e with
    | .thinkingStart => if b then none else bracketRun true es
    | .thinkingDelta _ => if b then bracketRun b es else none
    | .thinkingEnd => if b then bracketRun false es else none
    | .textDelta _ => if b then none else bracketRun b es
    | .toolCallsEvt _ => if b then none else bracketRun b es

/-- Whether an SSE line is a successfully parsed envelope carrying a
truthy `finishReason`. -/
def lineFinishSignal (line : List Char) : Bool :=
  if dataMarker.isPrefixOf line then
    match parseJson (line.drop 6) with
    | some data => if data = Json.null then false else otruthy (envelopeFinishReason data)
    | none => false
  else false

theorem bracketRun_append (e1 : List StreamEvent) :
    ∀ (b : Bool) (e2 : List StreamEvent),
      bracketRun b (e1 ++ e2) = (bracketRun b e1).bind (fun b2 => bracketRun b2 e2) := by
  induction e1 with
  | nil => intro b e2; simp [bracketRun]
  | cons e es ih =>
    intro b e2
    cases e <;> simp only [List.cons_append, bracketRun] <;> split <;> simp [ih]

theorem processPart_bracket (s : StreamState) (p : Json) :
    bracketRun s.thinkingStarted (processPart s p).2
      = some (processPart s p).1.thinkingStarted := by
  unfold processPart
  (repeat' split) <;> simp_all [bracketRun]

theorem processParts_bracket (ps : List Json) :
    ∀ s : StreamState,
      bracketRun s.thinkingStarted (processParts s ps).2
        = some (processParts s ps).1.thinkingStarted := by
  induction ps with
  | nil => intro s; simp [processParts, bracketRun]
  | cons p ps ih =>
    intro s
    simp only [processParts, bracketRun_append, processPart_bracket, Option.bind_some,
      Option.some_bind]
    exact ih (processPart s p).1

theorem afterParts_bracket (s : StreamState) (data : Json) (evs : List StreamEvent)
    (b : Bool) (h : bracketRun b evs = some s.thinkingStarted) :
    bracketRun b (afterParts s data evs).2
      = some (afterParts s data evs).1.thinkingStarted := by
  unfold afterParts
  split
  · cases hst : s.thinkingStarted <;>
      simp [hst, bracketRun_append, h, bracketRun, hst ▸ h]
  · exact h

theorem emitLine_bracket (s : StreamState) (line : List Char) :
    bracketRun s.thinkingStarted (emitLine s line).2
      = some (emitLine s line).1.thinkingStarted := by
  unfold emitLine
  split
  · split
    · split
      · simp [bracketRun]
      · unfold envelopeStep
        split
        · exact afterParts_bracket _ _ _ _ (processParts_bracket _ s)
        · exact afterParts_bracket _ _ _ _ (by simp [bracketRun])
        · split
          · simp [bracketRun]
          · exact afterParts_bracket _ _ _ _ (by simp [bracketRun])
        · exact afterParts_bracket _ _ _ _ (by simp [bracketRun])
    · simp [bracketRun]
  · simp [bracketRun]

theorem processLines_bracket (lines : List (List Char)) :
    ∀ s : StreamState,
      bracketRun s.thinkingStarted (processLines s lines).2
        = some (processLines s lines).1.thinkingStarted := by
  induction lines with
  | nil => intro s; simp [processLines, bracketRun]
  | cons l ls ih =>
    intro s
    simp only [processLines, bracketRun_append, emitLine_bracket, Option.some_bind]
    exact ih (emitLine s l).1

theorem processPart_no_flush (s : StreamState) (p : Json) :
    (processPart s p).2.countP isToolCallsEvent = 0 := by
  unfold processPart
  (repeat' split) <;> simp_all [isToolCallsEvent]

theorem processParts_no_flush (ps : List Json) :
    ∀ s : StreamState, (processParts s ps).2.countP isToolCallsEvent = 0 := by
  induction ps with
  | nil => intro s; simp [processParts]
  | cons p ps ih =>
    intro s
    simp [processParts, List.countP_append, processPart_no_flush, ih]

theorem afterParts_flush_mem (s1 : StreamState) (data : Json) (evs : List StreamEvent)
    (l : List OAIToolCall) (hevs : evs.countP isToolCallsEvent = 0)
    (hmem : StreamEvent.toolCallsEvt l ∈ (afterParts s1 data evs).2) :
    otruthy (envelopeFinishReason data) = true
      ∧ (afterParts s1 data evs).2.getLast? = some (.toolCallsEvt l)
      ∧ (afterParts s1 data evs).2.countP isToolCallsEvent = 1
      ∧ (afterParts s1 data evs).1.toolCalls = [] := by
  have hnone : ∀ l2, StreamEvent.toolCallsEvt l2 ∉ evs := by
    intro l2 hl2
    have := (List.countP_eq_zero.mp hevs) _ hl2
    simp [isToolCallsEvent] at this
  unfold afterParts at hmem ⊢
  by_cases hcond : otruthy (envelopeFinishReason data) = true ∧ s1.toolCalls ≠ []
  · rw [if_pos hcond] at hmem ⊢
    have hl : l = s1.toolCalls := by
      rcases List.mem_append.mp hmem with h1 | h1
      · rcases List.mem_append.mp h1 with h2 | h2
        · exact absurd h2 (hnone l)
        · rcases hst : s1.thinkingStarted <;> simp [hst] at h2
      · simpa using h1
    subst hl
    refine ⟨hcond.1, ?_, ?_, rfl⟩
    · exact List.getLast?_concat _
    · rcases hst : s1.thinkingStarted <;>
        simp [hst, List.countP_append, hevs, isToolCallsEvent, List.countP_cons]
  · rw [if_neg hcond] at hmem
    exact absurd hmem (hnone l)

theorem emitLine_flush (s : StreamState) (line : List Char) (l : List OAIToolCall)
    (hmem : StreamEvent.toolCallsEvt l ∈ (emitLine s line).2) :
    lineFinishSignal line = true
      ∧ (emitLine s line).2.getLast? = some (.toolCallsEvt l)
      ∧ (emitLine s line).2.countP isToolCallsEvent = 1
      ∧ (emitLine s line).1.toolCalls = [] := by
  unfold emitLine at hmem ⊢
  unfold lineFinishSignal
  by_cases hpre : dataMarker.isPrefixOf line
  · simp only [hpre, if_pos] at hmem ⊢
    cases hp : parseJson (line.drop 6) with
    | none => rw [hp] at hmem; simp at hmem
    | some data =>
      rw [hp] at hmem
      dsimp only at hmem ⊢
      by_cases hnull : data = Json.null
      · simp [hnull] at hmem
      · rw [if_neg hnull] at hmem
        rw [if_neg hnull, if_neg hnull]
        unfold envelopeStep at hmem ⊢
        split at hmem
        next ps heq =>
          have h0 := processParts_no_flush ps s
          have h := afterParts_flush_mem _ data _ l h0 hmem
          exact ⟨h.1, h.2⟩
        next heq =>
          have h := afterParts_flush_mem s data [] l (by simp) hmem
          exact ⟨h.1, h.2⟩
        next v hne1 hne2 heq =>
          split at hmem
          · simp at hmem
          · have h := afterParts_flush_mem s data [] l (by simp) hmem
            refine ⟨h.1, ?_⟩
            split
            · simp_all
            · exact h.2
        next heq =>
          have h := afterParts_flush_mem s data [] l (by simp) hmem
          exact ⟨h.1, h.2⟩
  · simp [hpre] at hmem

theorem envelopeStep_flush (s : StreamState) (data : Json) (ps : List Json)
    (harr : envelopeParts data = some (Json.arr ps))
    (hfin : otruthy (envelopeFinishReason data) = true)
    (hne : (processParts s ps).1.toolCalls ≠ []) :
    envelopeStep s data
      = (⟨false, []⟩,
         (processParts s ps).2
           ++ (if (processParts s ps).1.thinkingStarted then [.thinkingEnd] else [])
           ++ [.toolCallsEvt (processParts s ps).1.toolCalls]) := by
  unfold envelopeStep
  rw [harr]
  dsimp only
  unfold afterParts
  rw [if_pos ⟨hfin, hne⟩]

theorem findFunctionNameByIdRev_of_no_match (id : String) (msgs : List GMessage)
    (h : ∀ m ∈ msgs, m.role = GRole.model → findInParts id m.parts = none) :
    findFunctionNameByIdRev id msgs = "" := by
  induction msgs with
  | nil => rfl
  | cons m rest ih =>
    unfold findFunctionNameByIdRev
    by_cases hr : m.role = GRole.model
    · rw [if_pos hr, h m (by simp) hr]
      exact ih (fun m2 hm2 => h m2 (by simp [hm2]))
    · rw [if_neg hr]
      exact ih (fun m2 hm2 => h m2 (by simp [hm2]))

theorem findFunctionNameById_of_no_match (id : String) (msgs : List GMessage)
    (h : ∀ m ∈ msgs, m.role = GRole.model → findInParts id m.parts = none) :
    findFunctionNameById id msgs = "" := by
  unfold findFunctionNameById
  exact findFunctionNameByIdRev_of_no_match id msgs.reverse
    (fun m hm => h m (List.mem_reverse.mp hm))

/-! ## Claim theorems -/

/-- C6: `hasGroundingData(candidate)` returns false when the candidate is
absent (or falsy) and otherwise detects grounding exactly when at least
one web-search query, grounding chunk, or grounding support is present —
inside the metadata object or directly on the candidate; an empty or
absent metadata object alone never counts. -/
theorem c6_hasGroundingData_characterisation (candidate : Option Json) :
    hasGroundingData candidate = hasGroundingSpec candidate := by
  cases candidate with
  | none => rfl
  | some cand =>
    cases cand with
    | obj fields =>
      unfold hasGroundingData hasGroundingSpec
      simp only [Json.truthy, Json.get]
      cases hmeta : Json.lookupField "groundingMetadata" fields with
      | none => simp [isNonemptyArr]
      | some m =>
        cases m <;>
          simp [Json.get, jsTypeofObject, Json.truthy, Bool.or_assoc, isNonemptyArr]
    | _ => simp [hasGroundingData, hasGroundingSpec, Json.get, Json.truthy]

/-- C7: `handleApiError` disables the account and throws with the response
body attached exactly on an HTTP 403; every other failure is thrown with
status and body while the account stays enabled.  The function always
throws (its result is the thrown error), so no retry on another account
can happen inside the call. -/
theorem c7_handleApiError_classification (e : ApiErrorInput) :
    (statusVal e = some 403 →
      (handleApiError e).disabledAccount = true
        ∧ (handleApiError e).thrownMessage
            = "该账号没有使用权限，已自动禁用。错误详情: " ++ apiErrorBody e)
    ∧ (statusVal e ≠ some 403 →
      (handleApiError e).disabledAccount = false
        ∧ (handleApiError e).thrownMessage
            = "API请求失败 ("
                ++ (match statusVal e with
                    | some n => toString n
                    | none => "Unknown")
                ++ "): " ++ apiErrorBody e) := by
  constructor
  · intro h
    simp [handleApiError, h]
  · intro h
    simp [handleApiError, h]

/-- C7 witness: a concrete 403 stream-bodied error is classified as
account-disabling with the body attached, and a concrete 500 error is
not. -/
theorem c7_witness :
    (handleApiError ⟨some ⟨some 403, .streamD ["denied"]⟩, none, "m"⟩).disabledAccount = true
      ∧ (handleApiError ⟨some ⟨some 500, .val (Json.str "boom")⟩, none, "m"⟩).disabledAccount
          = false := by
  refine ⟨((c7_handleApiError_classification
    ⟨some ⟨some 403, .streamD ["denied"]⟩, none, "m"⟩).1 (by decide)).1, ?_⟩
  exact ((c7_handleApiError_classification
    ⟨some ⟨some 500, .val (Json.str "boom")⟩, none, "m"⟩).2 (by decide)).1

/-- C8: a line without the `data: ` marker, or whose payload fails to
parse as JSON, emits nothing, leaves the per-stream state unchanged, and
has no effect on the processing of subsequent lines. -/
theorem c8_malformed_line_ignored (s : StreamState) (line : List Char)
    (h : dataMarker.isPrefixOf line = false ∨ parseJson (line.drop 6) = none) :
    emitLine s line = (s, [])
      ∧ ∀ rest : List (List Char), processLines s (line :: rest) = processLines s rest := by
  have h1 : emitLine s line = (s, []) := by
    unfold emitLine
    rcases h with h | h
    · simp [h]
    · by_cases hp : dataMarker.isPrefixOf line
      · simp [hp, h]
      · simp [hp]
  refine ⟨h1, fun rest => ?_⟩
  simp [processLines, h1]

/-- C8 witness: the concrete corrupt line `data: {oops` is swallowed. -/
theorem c8_witness :
    emitLine initStreamState "data: \x7boops".data = (initStreamState, []) :=
  (c8_malformed_line_ignored initStreamState "data: \x7boops".data (Or.inr (by decide))).1

/-- C10: a tool result whose id matches no `functionCall` part of any
model turn resolves to the empty function name, and is still emitted as a
`functionResponse` part carrying the id, the empty name and the result
content — it is never dropped. -/
theorem c10_unmatched_tool_result (msgs : List GMessage) (id : String) (trc : TRContent)
    (h : ∀ m ∈ msgs, m.role = GRole.model → findInParts id m.parts = none) :
    findFunctionNameById id msgs = ""
      ∧ handleClaudeToolResult (.items [.toolResult id trc]) msgs
          = pushFunctionResponse id "" (toolResultContentString trc) msgs
      ∧ ∃ turn,
          (handleClaudeToolResult (.items [.toolResult id trc]) msgs).getLast? = some turn
            ∧ GPart.functionResponse id "" (toolResultContentString trc) ∈ turn.parts := by
  have h1 : findFunctionNameById id msgs = "" := findFunctionNameById_of_no_match id msgs h
  have h2 : handleClaudeToolResult (.items [.toolResult id trc]) msgs
      = pushFunctionResponse id "" (toolResultContentString trc) msgs := by
    unfold handleClaudeToolResult
    simp [h1]
  refine ⟨h1, h2, ?_⟩
  rw [h2]
  cases hlast : msgs.getLast? with
  | none =>
    refine ⟨⟨.user, [.functionResponse id "" (toolResultContentString trc)]⟩, ?_, by simp⟩
    simp [pushFunctionResponse, hlast]
  | some last =>
    by_cases hc : last.role = GRole.user ∧ last.parts.any GPart.isFunctionResponse
    · refine ⟨⟨last.role, last.parts
        ++ [.functionResponse id "" (toolResultContentString trc)]⟩, ?_, by simp⟩
      simp [pushFunctionResponse, hlast, hc]
    · refine ⟨⟨.user, [.functionResponse id "" (toolResultContentString trc)]⟩, ?_, by simp⟩
      have hc2 : ¬(last.role = GRole.user ∧ ∃ x ∈ last.parts, x.isFunctionResponse = true) := by
        simpa [List.any_eq_true] using hc
      simp [pushFunctionResponse, hlast, hc2]

/-- C10 witness: a concrete unmatched id resolves to the empty name. -/
theorem c10_witness :
    findFunctionNameById "zzz"
      [⟨GRole.model, [GPart.functionCall "a1" "f" (Json.obj []) none]⟩] = "" :=
  (c10_unmatched_tool_result
    [⟨GRole.model, [GPart.functionCall "a1" "f" (Json.obj []) none]⟩]
    "zzz" (TRContent.str "out") (by decide)).1

/-- C3: when any tool named `web_search` is present, the built request
substitutes the single fixed `googleSearch` descriptor, forces the model
to `gemini-2.5-flash`, forces `generationConfig.candidateCount` to 1,
switches the request type to `web_search` (instead of the default
`agent`), and is independent of the client-tool conversion function —
conversion is skipped entirely. -/
theorem c3_web_search_forces_search_request (ext : Externals) (cfg : CoreConfig)
    (mm : String → String) (ie : String → Bool)
    (conv : List ClaudeTool → String → String → List Json)
    (gg : Json → Bool → String → GenConfig)
    (msgs : List ClaudeMessage) (modelName : String) (parameters : Json)
    (tools : List ClaudeTool) (sysPrompt : UserSystemPrompt) (token : BackendToken)
    (h : hasWebSearchTool tools = true) :
    (generateClaudeRequestBody ext cfg mm ie conv gg msgs modelName parameters tools
        sysPrompt token).request.tools = some [googleSearchToolJson]
      ∧ (generateClaudeRequestBody ext cfg mm ie conv gg msgs modelName parameters tools
          sysPrompt token).model = "gemini-2.5-flash"
      ∧ (generateClaudeRequestBody ext cfg mm ie conv gg msgs modelName parameters tools
          sysPrompt token).request.generationConfig
          = some { gg parameters (ie modelName) (mm modelName) with candidateCount := some 1 }
      ∧ (generateClaudeRequestBody ext cfg mm ie conv gg msgs modelName parameters tools
          sysPrompt token).requestType = "web_search"
      ∧ ∀ conv2 : List ClaudeTool → String → String → List Json,
          generateClaudeRequestBody ext cfg mm ie conv2 gg msgs modelName parameters tools
              sysPrompt token
            = generateClaudeRequestBody ext cfg mm ie conv gg msgs modelName parameters tools
                sysPrompt token := by
  refine ⟨?_, ?_, ?_, ?_, ?_⟩ <;>
    simp [generateClaudeRequestBody, buildRequestBody, h]

/-- C3 witness: a concrete request whose tool list contains `web_search`
gets the fixed search configuration. -/
theorem c3_witness :
    (generateClaudeRequestBody
        ⟨fun _ => false, fun _ _ => false, fun _ _ _ => none, fun _ => none, fun _ => none,
          fun n => n⟩
        ⟨false, false, "", "", false, false, "after"⟩
        (fun m => m) (fun _ => false) (fun _ _ _ => []) (fun _ _ _ => ⟨none, Json.null⟩)
        [] "claude-x" Json.null [⟨some "web_search", Json.null⟩] .absent
        ⟨"proj", "sess"⟩).model = "gemini-2.5-flash" :=
  (c3_web_search_forces_search_request _ _ _ _ _ _ _ _ _ _ _ _ (by decide)).2.1

theorem assistantParts_shape_of_no_text (e : Bool) (ctx : SignatureContext)
    (col : AssistantCollect) (h : col.textContent = "") :
    ((assistantParts e ctx col).1 = []
        ∨ ∃ t sg, (assistantParts e ctx col).1 = [GPart.thought t sg])
      ∧ (assistantParts e ctx col).2 = false := by
  unfold assistantParts
  refine ⟨?_, by simp [h]⟩
  cases e with
  | true =>
    by_cases hs : strTruthy (jsOr col.messageSignature
        (jsOr ctx.reasoningSignature ctx.toolSignature)) = true
    · right
      simp only [if_pos, hs, h, createThoughtPart]
      exact ⟨_, _, rfl⟩
    · left
      simp [hs, h]
  | false =>
    left
    simp [h]

theorem findInParts_thought_skip (id : String) :
    ∀ (tp : List GPart), (∀ p ∈ tp, p.isThought = true) →
      ∀ rest : List GPart, findInParts id (tp ++ rest) = findInParts id rest
  | [], _, rest => rfl
  | p :: ps, htp, rest => by
    have hp := htp p (by simp)
    have ih := findInParts_thought_skip id ps (fun q hq => htp q (by simp [hq])) rest
    cases p <;> simp_all [findInParts, GPart.isThought]

/-- C4: a tool result is appended onto the last backend turn when that
turn is a user turn already holding a `functionResponse` part, and
otherwise opens a new user turn holding only `functionResponse` parts; in
particular, for one tool call followed by its result, the model turn ends
with the `functionCall` part and is immediately followed by a user turn
holding the matching `functionResponse`. -/
theorem c4_tool_result_turn_placement :
    (∀ (id name content : String) (msgs : List GMessage) (last : GMessage),
        msgs.getLast? = some last →
        (last.role = GRole.user ∧ last.parts.any GPart.isFunctionResponse = true →
          pushFunctionResponse id name content msgs
            = msgs.dropLast
                ++ [⟨last.role, last.parts ++ [.functionResponse id name content]⟩])
        ∧ (¬(last.role = GRole.user ∧ last.parts.any GPart.isFunctionResponse = true) →
          pushFunctionResponse id name content msgs
            = msgs ++ [⟨.user, [.functionResponse id name content]⟩]))
    ∧ ∀ (ext : Externals) (cfg : CoreConfig) (enableThinking : Bool)
        (model sess : String) (hasTools : Bool) (id name : String)
        (input : Option Json) (sig : Option String) (trc : TRContent),
        ∃ (mparts : List GPart) (fcsig : Option String),
          claudeMessageToAntigravity ext cfg
              [⟨"assistant", .items [.toolUse id name input sig]⟩,
               ⟨"user", .items [.toolResult id trc]⟩]
              enableThinking model sess hasTools
            = [⟨.model, mparts⟩,
               ⟨.user, [.functionResponse id (ext.sanitizeToolName name)
                          (toolResultContentString trc)]⟩]
            ∧ mparts.getLast?
                = some (.functionCall id (ext.sanitizeToolName name) (jsonInputOr input)
                    fcsig) := by
  constructor
  · intro id name content msgs last hlast
    constructor
    · intro hc
      simp only [pushFunctionResponse, hlast]
      rw [if_pos hc]
    · intro hc
      simp only [pushFunctionResponse, hlast]
      rw [if_neg hc]
  · intro ext cfg enableThinking model sess hasTools id name input sig trc
    set ctx := getSignatureContext ext cfg sess model hasTools with hctx
    set fcs : Option String :=
      (if enableThinking then jsOr sig (jsOr ctx.toolSignature ctx.reasoningSignature)
       else none) with hfcs
    set fc : GPart :=
      createFunctionCallPart id (ext.sanitizeToolName name) (jsonInputOr input) fcs
      with hfc
    have hcol : collectAssistantItems ext enableThinking ctx
        (.items [.toolUse id name input sig]) = { emptyCollect with toolCalls := [fc] } := by
      simp [collectAssistantItems, collectStep, emptyCollect, processToolName, hfc, hfcs]
    set col := collectAssistantItems ext enableThinking ctx
      (.items [.toolUse id name input sig]) with hcoldef
    obtain ⟨hshape, hhc⟩ :=
      assistantParts_shape_of_no_text enableThinking ctx col (by simp [hcol, emptyCollect])
    set pr := assistantParts enableThinking ctx col with hpr
    have htp : ∀ p ∈ pr.1, p.isThought = true := by
      rcases hshape with h1 | ⟨t, sg, h1⟩ <;> rw [h1]
      · simp
      · simp [GPart.isThought]
    have hmsg1 : handleClaudeAssistantMessage ext cfg
        (.items [.toolUse id name input sig]) [] enableThinking model sess hasTools
        = [⟨.model, pr.1 ++ [fc]⟩] := by
      show pushModelMessage pr.1 col.toolCalls pr.2 [] = _
      rw [hcol]
      simp [pushModelMessage, emptyCollect]
    have hfind : findInParts id (pr.1 ++ [fc]) = some (ext.sanitizeToolName name) := by
      rw [findInParts_thought_skip id pr.1 htp]
      simp [hfc, createFunctionCallPart, findInParts]
    have hname : findFunctionNameById id [⟨GRole.model, pr.1 ++ [fc]⟩]
        = ext.sanitizeToolName name := by
      simp [findFunctionNameById, findFunctionNameByIdRev, hfind]
    refine ⟨pr.1 ++ [fc], (if strTruthy fcs then fcs else none), ?_, ?_⟩
    · have hstep : claudeMessageToAntigravity ext cfg
          [⟨"assistant", .items [.toolUse id name input sig]⟩,
           ⟨"user", .items [.toolResult id trc]⟩]
          enableThinking model sess hasTools
          = handleClaudeToolResult (.items [.toolResult id trc])
              (handleClaudeAssistantMessage ext cfg (.items [.toolUse id name input sig]) []
                enableThinking model sess hasTools) := by
        unfold claudeMessageToAntigravity
        simp [isToolResultItem]
      rw [hstep, hmsg1]
      unfold handleClaudeToolResult
      simp only [List.foldl]
      rw [hname]
      simp [pushFunctionResponse]
    · rw [List.getLast?_concat, hfc]
      rfl

/-- C4 witness: a concrete second tool result is appended onto the pending
user turn that already holds a `functionResponse`. -/
theorem c4_witness :
    pushFunctionResponse "b" "g" "out"
        [⟨GRole.user, [GPart.functionResponse "a" "f" "o"]⟩]
      = [⟨GRole.user, [GPart.functionResponse "a" "f" "o",
           GPart.functionResponse "b" "g" "out"]⟩] := by
  have h := (c4_tool_result_turn_placement.1 "b" "g" "out"
      [⟨GRole.user, [GPart.functionResponse "a" "f" "o"]⟩]
      ⟨GRole.user, [GPart.functionResponse "a" "f" "o"]⟩ (by decide)).1 (by decide)
  simpa using h

/-- C9: an assistant message converting to tool-call parts with no
non-whitespace text merges its tool calls onto the preceding model turn;
in every other case a new model turn opens holding the message's parts
followed by its tool-call parts. -/
theorem c9_bare_tool_calls_merge (ext : Externals) (cfg : CoreConfig)
    (content : ClaudeContent) (msgs : List GMessage) (enableThinking : Bool)
    (model sess : String) (hasTools : Bool) :
    let ctx := getSignatureContext ext cfg sess model hasTools
    let col := collectAssistantItems ext enableThinking ctx content
    let pr := assistantParts enableThinking ctx col
    (∀ last, msgs.getLast? = some last → last.role = GRole.model →
        col.toolCalls ≠ [] → pr.2 = false →
        handleClaudeAssistantMessage ext cfg content msgs enableThinking model sess hasTools
          = msgs.dropLast ++ [⟨last.role, last.parts ++ col.toolCalls⟩])
      ∧ (∀ last, msgs.getLast? = some last →
          ¬(last.role = GRole.model ∧ col.toolCalls ≠ [] ∧ pr.2 = false) →
          handleClaudeAssistantMessage ext cfg content msgs enableThinking model sess hasTools
            = msgs ++ [⟨.model, pr.1 ++ col.toolCalls⟩])
      ∧ (msgs.getLast? = none →
          handleClaudeAssistantMessage ext cfg content msgs enableThinking model sess hasTools
            = msgs ++ [⟨.model, pr.1 ++ col.toolCalls⟩]) := by
  intro ctx col pr
  refine ⟨?_, ?_, ?_⟩
  · intro last hlast hrole htc hhc
    show pushModelMessage pr.1 col.toolCalls pr.2 msgs = _
    unfold pushModelMessage
    rw [hlast]
    dsimp only
    rw [if_pos ⟨hrole, htc, by simp [hhc]⟩]
  · intro last hlast hneg
    show pushModelMessage pr.1 col.toolCalls pr.2 msgs = _
    unfold pushModelMessage
    rw [hlast]
    dsimp only
    rw [if_neg]
    intro hcond
    exact hneg ⟨hcond.1, hcond.2.1, by simpa using hcond.2.2⟩
  · intro hnone
    show pushModelMessage pr.1 col.toolCalls pr.2 msgs = _
    unfold pushModelMessage
    rw [hnone]

/-- C9 witness: a concrete bare tool-call assistant message merges onto
the preceding model turn. -/
theorem c9_witness :
    handleClaudeAssistantMessage
        ⟨fun _ => false, fun _ _ => false, fun _ _ _ => none, fun _ => none, fun _ => none,
          fun n => n⟩
        ⟨false, false, "", "", false, false, "after"⟩
        (.items [.toolUse "t1" "f" none none])
        [⟨GRole.model, [GPart.text "hi"]⟩] false "m" "s" false
      = [⟨GRole.model, [GPart.text "hi",
           GPart.functionCall "t1" "f" (Json.obj []) none]⟩] := by
  have h := (c9_bare_tool_calls_merge
      ⟨fun _ => false, fun _ _ => false, fun _ _ _ => none, fun _ => none, fun _ => none,
        fun n => n⟩
      ⟨false, false, "", "", false, false, "after"⟩
      (.items [.toolUse "t1" "f" none none])
      [⟨GRole.model, [GPart.text "hi"]⟩] false "m" "s" false).1
      ⟨GRole.model, [GPart.text "hi"]⟩ (by decide) (by decide) (by decide) (by decide)
  simpa using h

theorem collectStep_toolCalls_shape (ext : Externals) (e : Bool) (ctx : SignatureContext)
    (acc : AssistantCollect) (item : ClaudeItem)
    (h : ∀ p ∈ acc.toolCalls, p.isThought = false) :
    ∀ p ∈ (collectStep ext e ctx acc item).toolCalls, p.isThought = false := by
  cases item with
  | toolUse id name input sig =>
    intro p hp
    simp only [collectStep, List.mem_append] at hp
    rcases hp with hp | hp
    · exact h p hp
    · simp only [List.mem_singleton] at hp
      subst hp
      rfl
  | thinking th sig =>
    intro p hp
    unfold collectStep at hp
    dsimp only at hp
    split at hp <;> split at hp <;> exact h p hp
  | _ => exact h

theorem collectAssistantItems_toolCalls_shape (ext : Externals) (e : Bool)
    (ctx : SignatureContext) (content : ClaudeContent) :
    ∀ p ∈ (collectAssistantItems ext e ctx content).toolCalls, p.isThought = false := by
  cases content with
  | str s => simp [collectAssistantItems, emptyCollect]
  | other => simp [collectAssistantItems, emptyCollect]
  | items xs =>
    unfold collectAssistantItems
    have main : ∀ (ys : List ClaudeItem) (acc : AssistantCollect),
        (∀ p ∈ acc.toolCalls, p.isThought = false) →
        ∀ p ∈ (ys.foldl (collectStep ext e ctx) acc).toolCalls, p.isThought = false := by
      intro ys
      induction ys with
      | nil => intro acc h; exact h
      | cons y ys ih =>
        intro acc h
        exact ih _ (collectStep_toolCalls_shape ext e ctx acc y h)
    exact main xs emptyCollect (by simp [emptyCollect])

theorem assistantParts_thought_shape (ctx : SignatureContext) (col : AssistantCollect) :
    (strTruthy (jsOr col.messageSignature (jsOr ctx.reasoningSignature ctx.toolSignature))
        = true →
      ∃ t, (assistantParts true ctx col).1
            = GPart.thought t
                (jsOr col.messageSignature (jsOr ctx.reasoningSignature ctx.toolSignature))
              :: (if col.textContent ≠ "" ∧ col.textContent.trim ≠ ""
                  then [GPart.text col.textContent.trimRight] else [])
          ∧ t ≠ "")
    ∧ (strTruthy (jsOr col.messageSignature (jsOr ctx.reasoningSignature ctx.toolSignature))
        = false →
      (assistantParts true ctx col).1
        = (if col.textContent ≠ "" ∧ col.textContent.trim ≠ ""
           then [GPart.text col.textContent.trimRight] else [])) := by
  constructor
  · intro hs
    unfold assistantParts
    simp only [if_pos, hs, createThoughtPart, not_true, Bool.not_true, Bool.false_eq_true,
      if_false, ite_true, ite_false]
    exact ⟨_, rfl, by (repeat' split) <;> simp_all⟩
  · intro hs
    unfold assistantParts
    simp [hs]

/-- C1: with thinking enabled, the converted assistant message carries a
`thought` part exactly when a signature is available — from the message
itself (`messageSignature`), the signature cache, or the configured
fallback (both via the signature context) — and every emitted `thought`
part carries that non-empty signature together with a non-empty text;
with no signature available no `thought` part is emitted.  Tool-call
parts are never `thought` parts. -/
theorem c1_thought_part_requires_signature (ext : Externals) (cfg : CoreConfig)
    (content : ClaudeContent) (model sess : String) (hasTools : Bool) :
    let ctx := getSignatureContext ext cfg sess model hasTools
    let col := collectAssistantItems ext true ctx content
    let sigChain := jsOr col.messageSignature (jsOr ctx.reasoningSignature ctx.toolSignature)
    let parts := (assistantParts true ctx col).1
    ((∃ t sg, GPart.thought t sg ∈ parts) ↔ strTruthy sigChain = true)
      ∧ (∀ t sg, GPart.thought t sg ∈ parts →
          sg = sigChain ∧ ∃ s, sigChain = some s ∧ s ≠ "" ∧ t ≠ "")
      ∧ (∀ p ∈ col.toolCalls, p.isThought = false) := by
  intro ctx col sigChain parts
  have hparts : parts = (assistantParts true ctx col).1 := rfl
  obtain ⟨hpos, hneg⟩ := assistantParts_thought_shape ctx col
  by_cases hs : strTruthy sigChain = true
  · obtain ⟨t0, heq, ht0⟩ := hpos hs
    refine ⟨⟨fun _ => hs,
      fun _ => ⟨t0, sigChain, by rw [hparts, heq]; exact List.mem_cons_self _ _⟩⟩,
      ?_, collectAssistantItems_toolCalls_shape ext true ctx content⟩
    intro t sg hmem
    rw [hparts, heq] at hmem
    rcases List.mem_cons.mp hmem with h1 | h1
    · injection h1 with h1a h1b
      subst h1a h1b
      refine ⟨rfl, ?_⟩
      cases hsc : sigChain with
      | none => rw [hsc] at hs; simp [strTruthy] at hs
      | some s =>
        rw [hsc] at hs
        exact ⟨s, rfl, by simpa [strTruthy] using hs, ht0⟩
    · split at h1 <;> simp at h1
  · have hs2 : strTruthy sigChain = false := by simpa using hs
    refine ⟨⟨?_, fun hh => absurd hh hs⟩, ?_,
      collectAssistantItems_toolCalls_shape ext true ctx content⟩
    · rintro ⟨t, sg, hmem⟩
      rw [hparts, hneg hs2] at hmem
      split at hmem <;> simp at hmem
    · intro t sg hmem
      rw [hparts, hneg hs2] at hmem
      split at hmem <;> simp at hmem

/-- C1 witness: with thinking enabled, a message-supplied signature yields
exactly one `thought` part carrying it, and a no-signature context yields
none. -/
theorem c1_witness :
    strTruthy (jsOr (some "sig1") (jsOr none none)) = true
      ∧ (∃ t sg, GPart.thought t sg ∈
          (assistantParts true ⟨none, " ", none, " "⟩
            (collectAssistantItems
              ⟨fun _ => false, fun _ _ => false, fun _ _ _ => none, fun _ => none,
                fun _ => none, fun n => n⟩ true ⟨none, " ", none, " "⟩
              (.items [.thinking "because" (some "sig1")]))).1) := by
  have h := c1_thought_part_requires_signature
    ⟨fun _ => false, fun _ _ => false, fun _ _ _ => none, fun _ => none,
      fun _ => none, fun n => n⟩
    ⟨false, false, "", "", false, false, "after"⟩
    (.items [.thinking "because" (some "sig1")]) "m" "s" false
  refine ⟨by decide, ?_⟩
  have hctx : getSignatureContext
      ⟨fun _ => false, fun _ _ => false, fun _ _ _ => none, fun _ => none,
        fun _ => none, fun n => n⟩
      ⟨false, false, "", "", false, false, "after"⟩ "s" "m" false
      = ⟨none, " ", none, " "⟩ := by decide
  rw [← hctx]
  exact h.1.mpr (by decide)

theorem any_toolCalls_iff (evs : List StreamEvent) :
    evs.any isToolCallsEvent = true ↔ ∃ l, StreamEvent.toolCallsEvt l ∈ evs := by
  rw [List.any_eq_true]
  constructor
  · rintro ⟨e, he, hp⟩
    cases e <;> simp [isToolCallsEvent] at hp
    exact ⟨_, he⟩
  · rintro ⟨l, hl⟩
    exact ⟨_, hl, rfl⟩

/-- C5: thinking is opened at the first thought part and closed before any
following non-thought event (the bracketing automaton accepts every run);
`functionCall` parts are buffered, never emitted by the part loop; a
single `tool_calls` event flushing the whole buffer is emitted exactly
when an envelope with a truthy finish signal is processed with a
non-empty buffer, which it clears; and the handler terminates the stream
with finish reason `tool_calls` iff a tool-calls event was flushed, else
`stop`. -/
theorem c5_streaming_temporal_protocol :
    (∀ (s : StreamState) (ps : List Json),
        (processParts s ps).2.countP isToolCallsEvent = 0)
      ∧ (∀ (s : StreamState) (line : List Char) (l : List OAIToolCall),
          StreamEvent.toolCallsEvt l ∈ (emitLine s line).2 →
            lineFinishSignal line = true
              ∧ (emitLine s line).2.getLast? = some (.toolCallsEvt l)
              ∧ (emitLine s line).2.countP isToolCallsEvent = 1
              ∧ (emitLine s line).1.toolCalls = [])
      ∧ (∀ (s : StreamState) (data : Json) (ps : List Json),
          envelopeParts data = some (Json.arr ps) →
          otruthy (envelopeFinishReason data) = true →
          (processParts s ps).1.toolCalls ≠ [] →
          envelopeStep s data
            = (⟨false, []⟩,
               (processParts s ps).2
                 ++ (if (processParts s ps).1.thinkingStarted then [.thinkingEnd] else [])
                 ++ [.toolCallsEvt (processParts s ps).1.toolCalls]))
      ∧ (∀ lines : List (List Char),
          bracketRun false (processLines initStreamState lines).2
            = some (processLines initStreamState lines).1.thinkingStarted)
      ∧ (∀ evs : List StreamEvent,
          (streamFinishReason evs = "tool_calls" ↔ ∃ l, StreamEvent.toolCallsEvt l ∈ evs)
            ∧ ((¬ ∃ l, StreamEvent.toolCallsEvt l ∈ evs) →
                streamFinishReason evs = "stop")) := by
  refine ⟨fun s ps => processParts_no_flush ps s,
    fun s line l h => emitLine_flush s line l h,
    fun s data ps h1 h2 h3 => envelopeStep_flush s data ps h1 h2 h3,
    fun lines => processLines_bracket lines initStreamState,
    fun evs => ?_⟩
  constructor
  · rw [← any_toolCalls_iff]
    unfold streamFinishReason
    constructor
    · intro h
      by_contra hany
      rw [if_neg] at h
      · simp at h
      · simpa using hany
    · intro h
      rw [if_pos h]
  · intro h
    rw [← any_toolCalls_iff] at h
    unfold streamFinishReason
    rw [if_neg h]

set_option maxRecDepth 8192 in
/-- C5 witness: a concrete envelope carrying a function call and a finish
signal flushes the buffered tool call and leaves an empty buffer. -/
theorem c5_witness :
    lineFinishSignal
        "data: \x7b\"response\":\x7b\"candidates\":[\x7b\"content\":\x7b\"parts\":[\x7b\"functionCall\":\x7b\"id\":\"t1\",\"name\":\"f\",\"args\":\x7b\"x\":1\x7d\x7d\x7d]\x7d,\"finishReason\":\"STOP\"\x7d]\x7d\x7d".data
        = true
      ∧ (emitLine initStreamState
          "data: \x7b\"response\":\x7b\"candidates\":[\x7b\"content\":\x7b\"parts\":[\x7b\"functionCall\":\x7b\"id\":\"t1\",\"name\":\"f\",\"args\":\x7b\"x\":1\x7d\x7d\x7d]\x7d,\"finishReason\":\"STOP\"\x7d]\x7d\x7d".data).1.toolCalls
          = [] := by
  have h := c5_streaming_temporal_protocol.2.1 initStreamState
    "data: \x7b\"response\":\x7b\"candidates\":[\x7b\"content\":\x7b\"parts\":[\x7b\"functionCall\":\x7b\"id\":\"t1\",\"name\":\"f\",\"args\":\x7b\"x\":1\x7d\x7d\x7d]\x7d,\"finishReason\":\"STOP\"\x7d]\x7d\x7d".data
    [⟨Json.str "t1", some (Json.str "f"), some "\x7b\"x\":1\x7d"⟩] (by decide)
  exact ⟨h.1, h.2.2.2⟩

set_option maxRecDepth 8192 in
/-- C2 counterexample: the UTF-8 bytes of one SSE line whose text payload
is `é`, delivered either whole or split between the two bytes of `é`,
produce different event sequences on the axios path (each chunk is
decoded independently, so the split yields two U+FFFD replacement
characters). -/
theorem c2_counterexample_byte_split :
    (byteFeed [exChunkA, exChunkB]).2 ≠ (byteFeed [exChunkA ++ exChunkB]).2 := by
  decide

/-- C2 (amended): over the decoded character stream — equivalently,
whenever every chunk boundary falls on a character boundary — feeding the
chunks one `processChunk` call at a time emits exactly the same event
sequence as feeding their concatenation as one chunk. -/
theorem c2_chunk_independence_chars (chunks : List (List Char)) :
    (feedChunks (initFeedState, []) chunks).2
      = (processChunk initFeedState chunks.flatten).2 := by
  have h1 := feedChunks_eq_feedChars chunks ⟨[], initStreamState⟩ [] (by simp)
  have h2 := processChunk_eq_feedChars chunks.flatten [] initStreamState [] (by simp)
  calc (feedChunks (initFeedState, []) chunks).2
      = (feedChars (⟨[], initStreamState⟩, []) chunks.flatten).2 := by
        rw [show initFeedState = (⟨[], initStreamState⟩ : FeedState) from rfl, h1]
    _ = (processChunk initFeedState chunks.flatten).2 := by
        rw [h2]
        simp [initFeedState]
